import Mathlib

/-!
Verification of the vim-deepl vocabulary service (Python) against its design
specification.  The Python modules under `vim_deepl/` are shallowly embedded:

* SQLite tables become Lean lists of row structures collected in a `DB` record;
  `TEXT` timestamp columns (`created_at`, `last_used`, ISO day strings) are
  modelled as integers, which is faithful because the fixed-width formats
  `YYYY-MM-DD HH:MM:SS` / `YYYY-MM-DD` compare lexicographically exactly as
  the instants they denote compare chronologically;
* Python `float` arithmetic is modelled by exact rationals (`ℚ`): the SM-2
  formulas are short products/sums and the claims are about the formulas;
* Python's builtin `round` (round half to even) is modelled by `pyRound`;
* string primitives (`strip`, `split`, `casefold`, SQL `trim`/`upper`/
  `COLLATE NOCASE`) are modelled over ASCII, which covers the language codes
  and terms the claims quantify over;
* randomness (`random.random`, `random.triangular`, SQL `ORDER BY RANDOM()`)
  is supplied by an explicit oracle argument, and injected callables
  (`parse_dt`, the DeepL provider, the Merriam-Webster fetcher) are function
  arguments, mirroring how the source injects them.
-/

namespace VimDeepl

/-! ## Python / SQL string primitives -/

/-- Characters treated as whitespace by Python `str.split` / `str.strip` and
by the regex class `\s` (ASCII fragment). -/
def pyIsSpace (c : Char) : Bool :=
  c = ' ' || c = '\t' || c = '\n' || c = '\r' || c = '\x0b' || c = '\x0c'

/-- Python `s.split()`: split on whitespace runs, discarding empty pieces. -/
def pySplit (s : String) : List String :=
  ((s.toList.splitOnP pyIsSpace).map (fun l => String.mk l)).filter (fun w => w ≠ "")

/-- Python `" ".join(s.split())`: collapse internal whitespace runs to single
spaces and drop surrounding whitespace. -/
def pyCollapse (s : String) : String :=
  String.intercalate " " (pySplit s)

/-- Drop the characters satisfying `p` from both ends of a character list. -/
def stripEndsP (p : Char → Bool) (l : List Char) : List Char :=
  ((l.dropWhile p).reverse.dropWhile p).reverse

/-- Python `s.strip()` (whitespace on both ends). -/
def pyStrip (s : String) : String :=
  String.mk (stripEndsP pyIsSpace s.toList)

/-- Python `s.strip(chars)` for an explicit character set. -/
def pyStripChars (cs : List Char) (s : String) : String :=
  String.mk (stripEndsP (fun c => cs.contains c) s.toList)

/-- ASCII lower-casing of one character; models Python `str.casefold` and
SQLite `COLLATE NOCASE` on the ASCII strings the claims range over. -/
def asciiLowerChar (c : Char) : Char :=
  if 'A' ≤ c && c ≤ 'Z' then Char.ofNat (c.toNat + 32) else c

/-- ASCII upper-casing of one character; models Python `str.upper` and
SQLite `upper(...)` on ASCII strings. -/
def asciiUpperChar (c : Char) : Char :=
  if 'a' ≤ c && c ≤ 'z' then Char.ofNat (c.toNat - 32) else c

/-- Python `str.casefold` (ASCII fragment). -/
def pyCasefold (s : String) : String :=
  String.mk (s.toList.map asciiLowerChar)

/-- Python `str.upper` / SQLite `upper` (ASCII fragment). -/
def pyUpper (s : String) : String :=
  String.mk (s.toList.map asciiUpperChar)

/-- SQLite `trim(x)`: strips space characters only. -/
def sqlTrim (s : String) : String :=
  String.mk (stripEndsP (fun c => c = ' ') s.toList)

/-- SQLite comparison `trim(a) = trim(b) COLLATE NOCASE`. -/
def sqlTrimNocaseEq (a b : String) : Bool :=
  pyCasefold (sqlTrim a) = pyCasefold (sqlTrim b)

/-- SQLite comparison `upper(trim(a)) = upper(trim(b))`. -/
def sqlUpperTrimEq (a b : String) : Bool :=
  pyUpper (sqlTrim a) = pyUpper (sqlTrim b)

/-! ## SM-2 arithmetic (`services/trainer_service.py`) -/

/-- Python builtin `round` on a real value: round half to even, as applied in
`_next_interval_days` to `prev_interval * ef`. -/
def pyRound (q : ℚ) : ℤ :=
  let f := ⌊q⌋
  let r := q - (f : ℚ)
  if r < 1/2 then f
  else if 1/2 < r then f + 1
  else if f % 2 = 0 then f else f + 1

/-- `_update_ef(ef, grade)`: `ef + (0.1 - (5-grade)*(0.08 + (5-grade)*0.02))`
floored at `1.3`. -/
def updateEf (ef : ℚ) (grade : ℤ) : ℚ :=
  max (13/10) (ef + (1/10 - ((5 - grade : ℤ) : ℚ) * (8/100 + ((5 - grade : ℤ) : ℚ) * (2/100))))

/-- `_next_interval_days(reps, prev_interval, ef)`. -/
def nextIntervalDays (reps : ℤ) (prevInterval : ℤ) (ef : ℚ) : ℤ :=
  if reps ≤ 1 then 1
  else if reps = 2 then 3
  else max 1 (pyRound ((prevInterval : ℚ) * ef))

/-- Python `int(x or 0)` on a nullable integer column: `None` and `0` both
give `0`. -/
def orInt (v : Option ℤ) : ℤ := v.getD 0

/-- Python `float(x or 2.5)` on the nullable `ef` column: `None` and `0.0`
both give the default `2.5`. -/
def orEf (v : Option ℚ) : ℚ :=
  match v with
  | none => 5/2
  | some x => if x = 0 then 5/2 else x

/-- The row of `training_cards` (schema of `repos/schema.py`; SRS columns are
nullable with the defaults applied by the readers). -/
structure Card where
  id : ℤ
  entry_id : Option ℤ
  src_lang : Option String
  reps : Option ℤ
  lapses : Option ℤ
  ef : Option ℚ
  interval_days : Option ℤ
  due_at : Option ℤ
  last_review_at : Option ℤ
  last_grade : Option ℤ
  correct_streak : Option ℤ
  wrong_streak : Option ℤ
  suspended : Option ℤ

/-- The dictionary built by `compute_srs` and written back by
`_update_training_card_srs_conn`. -/
structure Srs where
  reps : ℤ
  lapses : ℤ
  ef : ℚ
  interval_days : ℤ
  due_at : ℤ
  last_review_at : ℤ
  last_grade : ℤ
  correct_streak : ℤ
  wrong_streak : ℤ

/-- The column set selected by `_get_training_card_conn`.  Note that this
SELECT omits `entry_id` (unlike the public `get_training_card`), which is why
`review_training_card` later reads `card.get("entry_id")` as `None`. -/
structure CardSrsView where
  id : ℤ
  reps : Option ℤ
  lapses : Option ℤ
  ef : Option ℚ
  interval_days : Option ℤ
  due_at : Option ℤ
  last_review_at : Option ℤ
  last_grade : Option ℤ
  correct_streak : Option ℤ
  wrong_streak : Option ℤ
  suspended : Option ℤ

/-- `compute_srs(card, grade, now_ts)` over the view returned by
`_get_training_card_conn`. -/
def computeSrs (card : CardSrsView) (grade : ℤ) (nowTs : ℤ) : Srs :=
  let reps := orInt card.reps
  let lapses := orInt card.lapses
  let ef := orEf card.ef
  let intervalDays := orInt card.interval_days
  let correctStreak := orInt card.correct_streak
  let wrongStreak := orInt card.wrong_streak
  if grade < 3 then
    { reps := 0
      lapses := lapses + 1
      ef := updateEf ef grade
      interval_days := 1
      due_at := nowTs + 86400
      last_review_at := nowTs
      last_grade := grade
      correct_streak := 0
      wrong_streak := wrongStreak + 1 }
  else
    let reps := reps + 1
    let ef := updateEf ef grade
    let intervalDays := nextIntervalDays reps (max 1 intervalDays) ef
    { reps := reps
      lapses := lapses
      ef := ef
      interval_days := intervalDays
      due_at := nowTs + intervalDays * 86400
      last_review_at := nowTs
      last_grade := grade
      correct_streak := correctStreak + 1
      wrong_streak := 0 }

/-- The timestamp normalization performed by `_update_training_card_srs_conn`
before writing: millisecond values are divided by 1000 and an absurdly past
`due_at` (more than 365 days before the wall clock) is pushed one day
forward.  `wallTs` models `int(time.time())`. -/
def normalizeSrsForStore (wallTs : ℤ) (s : Srs) : Srs :=
  let dueAt := s.due_at
  let dueAt := if dueAt > 10000000000 then dueAt / 1000 else dueAt
  let lastReviewAt := s.last_review_at
  let lastReviewAt := if lastReviewAt > 10000000000 then lastReviewAt / 1000 else lastReviewAt
  let dueAt := if dueAt ≠ 0 && dueAt < wallTs - 86400 * 365 then wallTs + 86400 else dueAt
  { s with due_at := dueAt, last_review_at := lastReviewAt }

/-! ## Data model (`repos/schema.py` plus the columns the queries rely on) -/

/-- A row of `entries` (the base translation cache). -/
structure Entry where
  id : ℤ
  term : String
  translation : String
  src_lang : String
  dst_lang : String
  detected_raw : Option String
  created_at : ℤ
  last_used : Option ℤ
  count : ℤ
  hard : ℤ
  ignore : Bool

lemma entry_ext_iff (a b : Entry) :
    (a.id = b.id ∧ a.term = b.term ∧ a.translation = b.translation ∧
      a.src_lang = b.src_lang ∧ a.dst_lang = b.dst_lang ∧
      a.detected_raw = b.detected_raw ∧ a.created_at = b.created_at ∧
      a.last_used = b.last_used ∧ a.count = b.count ∧ a.hard = b.hard ∧
      a.ignore = b.ignore) ↔ a = b := by
  cases a
  cases b
  simp

instance : DecidableEq Entry := fun a b => decidable_of_iff _ (entry_ext_iff a b)

/-- A row of `entries_ctx` (the contextual cache).  The code reads and writes
a `ctx_text` column alongside the columns in the `CREATE TABLE` statement. -/
structure CtxRow where
  id : ℤ
  term : String
  translation : String
  src_lang : String
  dst_lang : String
  ctx_hash : String
  ctx_text : String
  created_at : ℤ
  last_used : Option ℤ
  count : ℤ

/-- A row of `entry_translations` (translation variants).  The repository's
upsert statements name the unique key `(term, src_lang, dst_lang,
translation)`. -/
structure VariantRow where
  term : String
  translation : String
  src_lang : String
  dst_lang : String
  created_at : ℤ
  last_used : Option ℤ
  count : ℤ

/-- A row of `mw_definitions`; the claims never inspect its payload, so the
non-key columns are collapsed into one field. -/
structure MwRow where
  term : String
  src_lang : String
  payload : String

/-- A row of `training_reviews` (minimal schema of `repos/schema.py`).  The
`day` column holds an ISO date string, modelled as an integer day number. -/
structure Review where
  card_id : ℤ
  ts : ℤ
  grade : ℤ
  day : ℤ

/-- The whole SQLite database, with the AUTOINCREMENT counters for the tables
whose generated ids the code uses. -/
structure DB where
  entries : List Entry
  entriesCtx : List CtxRow
  entryTranslations : List VariantRow
  mwDefs : List MwRow
  trainingCards : List Card
  trainingReviews : List Review
  nextEntryId : ℤ
  nextCtxId : ℤ
  nextCardId : ℤ

/-- SQL `COALESCE(last_used, created_at)`. -/
def coalesceTs (lastUsed : Option ℤ) (createdAt : ℤ) : ℤ :=
  lastUsed.getD createdAt

/-- SQL `ORDER BY`, modelled as a stable sort by a total boolean preorder
(insertion sort; stable, so ties keep their scan order). -/
def sortBy {α : Type} (le : α → α → Bool) (l : List α) : List α :=
  List.insertionSort (fun a b => le a b = true) l

lemma sortBy_perm {α : Type} (le : α → α → Bool) (l : List α) :
    (sortBy le l).Perm l :=
  List.perm_insertionSort _ l

lemma mem_sortBy {α : Type} {le : α → α → Bool} {l : List α} {a : α} :
    a ∈ sortBy le l ↔ a ∈ l :=
  (sortBy_perm le l).mem_iff

lemma sortBy_length {α : Type} (le : α → α → Bool) (l : List α) :
    (sortBy le l).length = l.length :=
  (sortBy_perm le l).length_eq

/-- Python truthiness of an optional string (`if s:`). -/
def optTruthy (s : Option String) : Option String :=
  match s with
  | none => none
  | some x => if x = "" then none else some x

/-- Python truthiness of an optional list (`if exclude_card_ids:`). -/
def listTruthy (l : Option (List ℤ)) : List ℤ :=
  match l with
  | some (x :: xs) => x :: xs
  | _ => []

/-! ## Translation repository (`repos/translation_repo.py`) -/

/-- `_ctx_for_storage(context)`: keep the whitespace-collapsed context only if
it looks like a sentence (contains whitespace or sentence punctuation). -/
def ctxForStorage (context : Option String) : Option String :=
  match context with
  | none => none
  | some c =>
    if c = "" then none
    else
      let ctx := pyCollapse c
      if ctx.toList.any pyIsSpace
          || ctx.toList.any (fun ch => ch ∈ (['.', '!', '?', ',', ';', ':'] : List Char)) then
        some ctx
      else none

/-- `_norm_translation(s)`: strip, collapse whitespace runs, then strip the
surrounding punctuation set. -/
def normTranslation (s : String) : String :=
  pyStripChars " \t\r\n.,;:!?".toList (pyCollapse (pyStrip s))

/-- `_should_store_variant(term, translation)`: reject empty strings and the
case where the (stripped, casefolded) translation equals the term. -/
def shouldStoreVariant (term tr : String) : Bool :=
  let t := pyCasefold (pyStrip term)
  let r := pyCasefold (pyStrip tr)
  if t = "" || r = "" then false
  else if r = t then false
  else true

/-- The `ORDER BY COALESCE(last_used, created_at) DESC, created_at DESC` order
of `get_base_entry_any_src`, as a total boolean preorder for a stable sort. -/
def baseOrderLe (a b : Entry) : Bool :=
  let ka := coalesceTs a.last_used a.created_at
  let kb := coalesceTs b.last_used b.created_at
  if ka ≠ kb then kb < ka else b.created_at ≤ a.created_at

/-- `get_base_entry_any_src(term, dst_lang, src_hint)`: prefer a row matching
the hint, else fall back to any source language; most recently used first. -/
def getBaseEntryAnySrc (db : DB) (term dstLang : String) (srcHint : Option String) :
    Option Entry :=
  let anySrc := db.entries.filter fun e =>
    sqlTrimNocaseEq e.term term && sqlUpperTrimEq e.dst_lang dstLang
  match optTruthy srcHint with
  | some hint =>
    let hinted := anySrc.filter fun e => sqlUpperTrimEq e.src_lang hint
    match (sortBy baseOrderLe hinted).head? with
    | some r => some r
    | none => (sortBy baseOrderLe anySrc).head?
  | none => (sortBy baseOrderLe anySrc).head?

/-- Upsert into `entry_translations` with conflict key `(term, src_lang,
dst_lang, translation)`: on conflict bump `count` and stamp `last_used`. -/
def upsertVariantRow (rows : List VariantRow) (term translation src dst : String)
    (createdAt lastUsed : ℤ) : List VariantRow :=
  let hit := fun (v : VariantRow) =>
    v.term = term && v.src_lang = src && v.dst_lang = dst && v.translation = translation
  if rows.any hit then
    rows.map fun v =>
      if hit v then { v with last_used := some lastUsed, count := v.count + 1 } else v
  else
    rows ++ [{ term := term, translation := translation, src_lang := src, dst_lang := dst,
               created_at := createdAt, last_used := some lastUsed, count := 1 }]

/-- `touch_base_usage(entry_id, now_s)`: bump the entry and mirror the hit
into `entry_translations` via the INSERT..SELECT statement. -/
def touchBaseUsage (db : DB) (entryId : ℤ) (nowS : ℤ) : DB :=
  let entries := db.entries.map fun e =>
    if e.id = entryId then { e with last_used := some nowS, count := e.count + 1 } else e
  let variants :=
    match entries.find? (fun e => e.id = entryId) with
    | some e => upsertVariantRow db.entryTranslations e.term e.translation e.src_lang
        e.dst_lang e.created_at nowS
    | none => db.entryTranslations
  { db with entries := entries, entryTranslations := variants }

/-- `upsert_base_entry(...)`: insert or bump the base row (conflict key
`(term, src_lang, dst_lang)`), then unconditionally upsert the variant row. -/
def upsertBaseEntry (db : DB) (term translation src dst detectedRaw : String)
    (nowS : ℤ) (context : Option String) : DB :=
  let detectedStore := (ctxForStorage context).getD detectedRaw
  let hit := fun (e : Entry) => e.term = term && e.src_lang = src && e.dst_lang = dst
  let db :=
    if db.entries.any hit then
      { db with entries := db.entries.map fun e =>
          if hit e then { e with last_used := some nowS, count := e.count + 1 } else e }
    else
      { db with
        entries := db.entries ++
          [{ id := db.nextEntryId, term := term, translation := translation,
             src_lang := src, dst_lang := dst, detected_raw := some detectedStore,
             created_at := nowS, last_used := some nowS, count := 1, hard := 0,
             ignore := false }]
        nextEntryId := db.nextEntryId + 1 }
  { db with entryTranslations :=
      upsertVariantRow db.entryTranslations term translation src dst nowS nowS }

/-- The `ORDER BY created_at DESC` order of the `get_ctx_entry` fallback. -/
def ctxCreatedDescLe (a b : CtxRow) : Bool :=
  b.created_at ≤ a.created_at

/-- `get_ctx_entry(term, src_lang, dst_lang, ctx_hash)`. -/
def getCtxEntry (db : DB) (term : String) (srcLang : Option String)
    (dstLang ctxHash : String) : Option CtxRow :=
  let termN := pyStrip term
  let dstN := pyStrip dstLang
  let srcN := pyStrip ((srcLang).getD "")
  let exact :=
    if srcN ≠ "" then
      db.entriesCtx.find? fun r =>
        sqlTrimNocaseEq r.term termN && sqlUpperTrimEq r.src_lang srcN &&
          sqlUpperTrimEq r.dst_lang dstN && r.ctx_hash = ctxHash
    else none
  match exact with
  | some r => some r
  | none =>
    (sortBy ctxCreatedDescLe (db.entriesCtx.filter fun r =>
        sqlTrimNocaseEq r.term termN && sqlUpperTrimEq r.dst_lang dstN &&
          r.ctx_hash = ctxHash)).head?

/-- `touch_ctx_usage(...)`: bump `count` and stamp `last_used` on the exact
`(term, src_lang, dst_lang, ctx_hash)` row. -/
def touchCtxUsage (db : DB) (term src dst ctxHash : String) (nowS : ℤ) : DB :=
  { db with entriesCtx := db.entriesCtx.map fun r =>
      if r.term = term && r.src_lang = src && r.dst_lang = dst && r.ctx_hash = ctxHash then
        { r with last_used := some nowS, count := r.count + 1 }
      else r }

/-- `list_ctx_translations(...)`: distinct translations for the exact key,
most recently used first (the `MAX(COALESCE(last_used, created_at))` of each
group), limited, dropping empty strings. -/
def listCtxTranslations (db : DB) (term src dst : String) (limit : ℕ) : List String :=
  let matching := db.entriesCtx.filter fun r =>
    r.term = term && r.src_lang = src && r.dst_lang = dst
  let groups := (matching.map (fun r => r.translation)).eraseDups
  let luFor := fun (t : String) =>
    (((matching.filter fun r => r.translation = t).map
        fun r => coalesceTs r.last_used r.created_at).max?).getD 0
  let sorted := sortBy (fun a b => b.2 ≤ a.2) (groups.map fun t => (t, luFor t))
  ((sorted.take limit).map fun p => p.1).filter fun t => t ≠ ""

/-- The eviction order of `upsert_ctx_entry`:
`COALESCE(last_used, created_at) ASC, id ASC`. -/
def evictLe (a b : CtxRow) : Bool :=
  let ka := coalesceTs a.last_used a.created_at
  let kb := coalesceTs b.last_used b.created_at
  if ka ≠ kb then ka < kb else a.id ≤ b.id

/-- The `DO UPDATE SET` arm of the context upsert: refresh translation,
`last_used`, `count` and (when non-empty) `ctx_text`. -/
def ctxHitUpdate (translation : String) (nowS : ℤ) (ctxText : String)
    (r : CtxRow) : CtxRow :=
  { r with translation := translation, last_used := some nowS, count := r.count + 1,
           ctx_text := if ctxText ≠ "" then ctxText else r.ctx_text }

/-- The upsert step of `upsert_ctx_entry` (before eviction): insert or update
the `(term, src_lang, dst_lang, ctx_hash)` row. -/
def upsertCtxRowStep (db : DB) (term translation src dst ctxHash : String)
    (nowS : ℤ) (ctxText : String) : DB :=
  let hit := fun (r : CtxRow) =>
    r.term = term && r.src_lang = src && r.dst_lang = dst && r.ctx_hash = ctxHash
  if db.entriesCtx.any hit then
    { db with entriesCtx := db.entriesCtx.map fun r =>
        if hit r then ctxHitUpdate translation nowS ctxText r else r }
  else
    { db with
      entriesCtx := db.entriesCtx ++
        [{ id := db.nextCtxId, term := term, translation := translation, src_lang := src,
           dst_lang := dst, ctx_hash := ctxHash, ctx_text := ctxText, created_at := nowS,
           last_used := some nowS, count := 1 }]
      nextCtxId := db.nextCtxId + 1 }

/-- The eviction step of `upsert_ctx_entry`: keep at most `MAX_CTX = 3`
context rows per `(term, src_lang, dst_lang)`, deleting the oldest by
`COALESCE(last_used, created_at)` among the rows whose `ctx_hash` differs
from the current one. -/
def evictCtxStep (db : DB) (term src dst ctxHash : String) : DB :=
  let keyed := fun (r : CtxRow) =>
    r.term = term && r.src_lang = src && r.dst_lang = dst
  let n := (db.entriesCtx.filter keyed).length
  let k := if n > 3 then n - 3 else 0
  let candidates := db.entriesCtx.filter fun r => keyed r && r.ctx_hash ≠ ctxHash
  let victimIds := ((sortBy evictLe candidates).take k).map fun r => r.id
  { db with entriesCtx := db.entriesCtx.filter fun r => !(victimIds.contains r.id) }

/-- `upsert_ctx_entry(...)`: normalize the context text, upsert the context
row, conditionally record the translation variant, then evict. -/
def upsertCtxEntry (db : DB) (term translation src dst ctxHash : String)
    (nowS : ℤ) (ctxText : String) : DB :=
  let ctxText := pyCollapse ctxText
  let db := upsertCtxRowStep db term translation src dst ctxHash nowS ctxText
  let trNorm := normTranslation translation
  let db :=
    if shouldStoreVariant term trNorm then
      { db with entryTranslations :=
          upsertVariantRow db.entryTranslations term trNorm src dst nowS nowS }
    else db
  evictCtxStep db term src dst ctxHash

/-! ## Trainer repository (`repos/trainer_repo.py`) -/

/-- The SQLite comparison order on a nullable integer column: NULL sorts
before every integer. -/
def optLtSql (a b : Option ℤ) : Bool :=
  match a, b with
  | none, none => false
  | none, some _ => true
  | some _, none => false
  | some x, some y => x < y

/-- The due-timestamp normalization repeated in the trainer queries:
millisecond values (`> 100000000000`) are divided down to seconds. -/
def dueNorm (d : ℤ) : ℤ :=
  if d > 100000000000 then d / 1000 else d

/-- The `context_raw` correlated subquery of the trainer queries: the most
recently used non-empty `ctx_text` for the entry's key, or the empty
string. -/
def ctxRawSubqueryLe (a b : CtxRow) : Bool :=
  let ka := coalesceTs a.last_used a.created_at
  let kb := coalesceTs b.last_used b.created_at
  if ka ≠ kb then kb < ka
  else if a.count ≠ b.count then b.count < a.count
  else b.id ≤ a.id

/-- The `COALESCE((SELECT x.ctx_text ...), '')` value for one entry. -/
def ctxRawFor (db : DB) (term src dst : String) : String :=
  let cands := db.entriesCtx.filter fun x =>
    x.term = term && x.src_lang = src && x.dst_lang = dst && x.ctx_text ≠ ""
  match (sortBy ctxRawSubqueryLe cands).head? with
  | some x => x.ctx_text
  | none => ""

/-- The row shape produced by the trainer candidate queries (`_list_due_…`,
`_list_new_…`, `_list_hard_…`). -/
structure PickRow where
  card_id : Option ℤ
  entry_id : ℤ
  due_at : Option ℤ
  lapses : Option ℤ
  wrong_streak : Option ℤ
  term : String
  translation : String
  src_lang : String
  dst_lang : String
  detected_raw : Option String
  context_raw : String

lemma pickRow_ext_iff (a b : PickRow) :
    (a.card_id = b.card_id ∧ a.entry_id = b.entry_id ∧ a.due_at = b.due_at ∧
      a.lapses = b.lapses ∧ a.wrong_streak = b.wrong_streak ∧ a.term = b.term ∧
      a.translation = b.translation ∧ a.src_lang = b.src_lang ∧
      a.dst_lang = b.dst_lang ∧ a.detected_raw = b.detected_raw ∧
      a.context_raw = b.context_raw) ↔ a = b := by
  cases a
  cases b
  simp

instance : DecidableEq PickRow := fun a b => decidable_of_iff _ (pickRow_ext_iff a b)

/-- The `JOIN entries e ON e.id = c.entry_id` of the due/hard queries. -/
def joinCards (db : DB) : List (Card × Entry) :=
  db.trainingCards.filterMap fun c =>
    match c.entry_id with
    | some eid => (db.entries.find? fun e => e.id = eid).map fun e => (c, e)
    | none => none

/-- The shared WHERE clause of the due and hard queries: non-suspended,
non-ignored, non-excluded cards of the language set whose normalized
`due_at` is at most `now_ts`. -/
def dueHardFilter (srcLangs : List String) (nowTs : ℤ) (exclude : List ℤ)
    (ce : Card × Entry) : Bool :=
  let c := ce.1
  let e := ce.2
  c.suspended = some 0 && e.ignore = false &&
    (match c.due_at with
     | some d => decide (dueNorm d ≤ nowTs)
     | none => false) &&
    !(exclude.contains c.id) && srcLangs.contains e.src_lang

/-- Build the selected row for a joined due/hard candidate. -/
def toPickRow (db : DB) (ce : Card × Entry) : PickRow :=
  let c := ce.1
  let e := ce.2
  { card_id := some c.id, entry_id := e.id,
    due_at := (c.due_at).map dueNorm,
    lapses := c.lapses, wrong_streak := c.wrong_streak,
    term := e.term, translation := e.translation,
    src_lang := e.src_lang, dst_lang := e.dst_lang,
    detected_raw := e.detected_raw,
    context_raw := ctxRawFor db e.term e.src_lang e.dst_lang }

/-- `ORDER BY due_at ASC, c.lapses DESC, c.wrong_streak DESC` of the due
query. -/
def dueOrderLe (a b : PickRow) : Bool :=
  if a.due_at ≠ b.due_at then optLtSql a.due_at b.due_at
  else if a.lapses ≠ b.lapses then optLtSql b.lapses a.lapses
  else if a.wrong_streak ≠ b.wrong_streak then optLtSql b.wrong_streak a.wrong_streak
  else true

/-- `_list_due_entries_conn(conn, src_langs, now_ts, limit, exclude_card_ids)`. -/
def listDueEntriesConn (db : DB) (srcLangs : List String) (nowTs : ℤ) (limit : ℕ)
    (excludeCardIds : Option (List ℤ)) : List PickRow :=
  if srcLangs = [] then []
  else
    let exclude := listTruthy excludeCardIds
    let rows := ((joinCards db).filter (dueHardFilter srcLangs nowTs exclude)).map
      (toPickRow db)
    (sortBy dueOrderLe rows).take limit

/-- `_list_new_entries_conn(conn, src_langs, limit)`: entries of the language
set without a training card yet, in `ORDER BY RANDOM()` order.  The random
permutation for the `LIMIT 1`-style use is modelled by a rotation chosen by
the oracle draw. -/
def listNewEntriesConn (draw : ℕ) (db : DB) (srcLangs : List String) (limit : ℕ) :
    List PickRow :=
  if srcLangs = [] then []
  else
    let cands := db.entries.filter fun e =>
      e.ignore = false && srcLangs.contains e.src_lang &&
        !(db.trainingCards.any fun c => c.entry_id = some e.id)
    let permuted := cands.rotateLeft draw
    (permuted.take limit).map fun e =>
      { card_id := none, entry_id := e.id, due_at := none,
        lapses := some 0, wrong_streak := some 0,
        term := e.term, translation := e.translation,
        src_lang := e.src_lang, dst_lang := e.dst_lang,
        detected_raw := e.detected_raw,
        context_raw := ctxRawFor db e.term e.src_lang e.dst_lang }

/-- `ORDER BY c.lapses DESC, c.wrong_streak DESC, due_at ASC,
COALESCE(CAST(c.last_review_at AS INTEGER), 0) ASC` of the hard query. -/
def hardOrderLe (a b : PickRow × ℤ) : Bool :=
  if a.1.lapses ≠ b.1.lapses then optLtSql b.1.lapses a.1.lapses
  else if a.1.wrong_streak ≠ b.1.wrong_streak then optLtSql b.1.wrong_streak a.1.wrong_streak
  else if a.1.due_at ≠ b.1.due_at then optLtSql a.1.due_at b.1.due_at
  else a.2 ≤ b.2

/-- `_list_hard_entries_conn(conn, src_langs, now_ts, limit, exclude_card_ids)`.
Note: the WHERE clause keeps only cards with normalized `due_at ≤ now_ts`,
and the method accepts no `allow_future` parameter even though its caller in
`trainer_service.py` passes `allow_future=True` (a `TypeError` at runtime);
the embedding models the query as the repository defines it. -/
def listHardEntriesConn (db : DB) (srcLangs : List String) (nowTs : ℤ) (limit : ℕ)
    (excludeCardIds : Option (List ℤ)) : List PickRow :=
  if srcLangs = [] then []
  else
    let exclude := listTruthy excludeCardIds
    let joined := (joinCards db).filter (dueHardFilter srcLangs nowTs exclude)
    let rows := joined.map fun ce =>
      (toPickRow db ce, (ce.1.last_review_at).getD 0)
    ((sortBy hardOrderLe rows).take limit).map fun p => p.1

/-- `_ensure_card_for_entry_conn(conn, entry_id, now_ts)`: return the
existing card id, or insert a card with the schema defaults (the richest
schema, with `src_lang` copied from the entry) and `due_at = now_ts`. -/
def ensureCardForEntryConn (db : DB) (entryId : ℤ) (nowTs : ℤ) :
    Except String (ℤ × DB) :=
  match db.trainingCards.find? (fun c => c.entry_id = some entryId) with
  | some c => .ok (c.id, db)
  | none =>
    match db.entries.find? (fun e => e.id = entryId) with
    | none => .error "entry not found"
    | some e =>
      let newCard : Card :=
        { id := db.nextCardId, entry_id := some entryId, src_lang := some e.src_lang,
          reps := some 0, lapses := some 0, ef := some (5/2), interval_days := some 0,
          due_at := some nowTs, last_review_at := none, last_grade := none,
          correct_streak := some 0, wrong_streak := some 0, suspended := some 0 }
      .ok (db.nextCardId,
        { db with trainingCards := db.trainingCards ++ [newCard],
                  nextCardId := db.nextCardId + 1 })

/-- `_insert_training_review_conn(...)` on the repository's own schema
(the column probe finds `card_id`, `ts`, `grade`, `day`). -/
def insertTrainingReviewConn (db : DB) (cardId ts grade day : ℤ) : DB :=
  { db with trainingReviews := db.trainingReviews ++
      [{ card_id := cardId, ts := ts, grade := grade, day := day }] }

/-- `_update_training_card_srs_conn(conn, card_id, s)`: normalize the
timestamps for storage (with `wallTs` modelling `int(time.time())`) and write
the nine SRS columns of the card. -/
def updateTrainingCardSrsConn (wallTs : ℤ) (db : DB) (cardId : ℤ) (s : Srs) : DB :=
  let s2 := normalizeSrsForStore wallTs s
  { db with trainingCards := db.trainingCards.map fun c =>
      if c.id = cardId then
        { c with reps := some s2.reps, lapses := some s2.lapses, ef := some s2.ef,
                 interval_days := some s2.interval_days, due_at := some s2.due_at,
                 last_review_at := some s2.last_review_at, last_grade := some s2.last_grade,
                 correct_streak := some s2.correct_streak,
                 wrong_streak := some s2.wrong_streak }
      else c }

/-- `_get_training_card_conn(conn, card_id)`: the SRS view of the card (its
SELECT list omits `entry_id`). -/
def getTrainingCardSrsView (db : DB) (cardId : ℤ) : Option CardSrsView :=
  (db.trainingCards.find? fun c => c.id = cardId).map fun c =>
    { id := c.id, reps := c.reps, lapses := c.lapses, ef := c.ef,
      interval_days := c.interval_days, due_at := c.due_at,
      last_review_at := c.last_review_at, last_grade := c.last_grade,
      correct_streak := c.correct_streak, wrong_streak := c.wrong_streak,
      suspended := c.suspended }

/-- `_count_reviews_for_day_conn(conn, day)`. -/
def countReviewsForDayConn (db : DB) (day : ℤ) : ℕ :=
  (db.trainingReviews.filter fun r => r.day = day).length

/-- `_list_active_days_desc_conn(conn, limit=400)`: the distinct review days,
newest first, limited.  ISO date strings of fixed width order
lexicographically as the days they denote, so the integer order is
faithful. -/
def listActiveDaysDescConn (db : DB) (limit : ℕ) : List ℤ :=
  (sortBy (fun a b => b ≤ a)
    ((db.trainingReviews.map fun r => r.day).eraseDups)).take limit

/-! ## Trainer service (`services/trainer_service.py`) -/

/-- The `datetime` values handed to the service: `ts` models
`int(now.timestamp())` and `day` models `now.date()` as an ordinal day
number (`now.date().isoformat()` for review rows, with consecutive dates
differing by one). -/
structure PyDateTime where
  ts : ℤ
  day : ℤ

/-- The `while cur.isoformat() in active:` walk of `get_progress`.  The walk
visits strictly decreasing days, so erasing the visited day preserves every
later membership test; every successful step removes one element, so fuel
equal to the length of `active` makes the bounded walk agree with the
unbounded loop. -/
def streakWalk : ℕ → List ℤ → ℤ → ℕ
  | 0, _, _ => 0
  | fuel + 1, active, cur =>
    if cur ∈ active then 1 + streakWalk fuel (active.erase cur) (cur - 1) else 0

/-- The result of `get_progress(now)`. -/
structure Progress where
  day : ℤ
  today_done : ℕ
  streak_days : ℕ

/-- `get_progress(now)`: the count of reviews on the current day and the
consecutive-day streak walked back from today over the listed active days. -/
def getProgress (db : DB) (now : PyDateTime) : Progress :=
  let day := now.day
  let todayDone := countReviewsForDayConn db day
  let days := listActiveDaysDescConn db 400
  { day := day, today_done := todayDone, streak_days := streakWalk days.length days day }

/-- `review_training_card(card_id, grade, now)`: validate, compute the SM-2
update, insert the review row, store the card.  `wallTs` models the
`int(time.time())` read by the storing step.  The final block that would
bump the owning entry reads `card.get("entry_id")` from the
`_get_training_card_conn` view, which has no `entry_id` key, so `entry_id`
is always `0` and the entries UPDATE is never executed. -/
def reviewTrainingCard (db : DB) (cardId grade : ℤ) (now : PyDateTime)
    (wallTs : ℤ) : Except String (Srs × DB) :=
  if grade < 0 || 5 < grade then .error "grade must be in range 0..5"
  else
    match getTrainingCardSrsView db cardId with
    | none => .error "training_card not found"
    | some card =>
      if orInt card.suspended = 1 then .error "training_card suspended"
      else
        let srs := computeSrs card grade now.ts
        let db := insertTrainingReviewConn db cardId now.ts grade now.day
        let db := updateTrainingCardSrsConn wallTs db cardId srs
        let entryId : ℤ := orInt none
        let db :=
          if entryId ≠ 0 then
            { db with entries := db.entries.map fun e =>
                if e.id = entryId then
                  { e with last_used := some now.ts, count := e.count + 1 }
                else e }
          else db
        .ok (srs, db)

/-- `list_entries_for_training(src_langs)`: non-ignored entries of the
language set. -/
def listEntriesForTraining (db : DB) (srcLangs : List String) : List Entry :=
  if srcLangs = [] then []
  else db.entries.filter fun e => e.ignore = false && srcLangs.contains e.src_lang

/-- `TrainerConfig` of `trainer_service.py`.  It has no `hard_random_top_n`
field, so `getattr(self.cfg, "hard_random_top_n", 5)` always yields 5. -/
structure TrainerConfig where
  recent_days : ℤ
  mastery_count : ℤ
  recent_ratio : ℚ := 7/10
  srs_new_ratio : ℚ := 1/5

/-- The randomness consumed by `pick_training_word`: the two
`random.random() < ratio` coin flips, and a stream of index draws standing
for `int(random.triangular(0, n-1, mode))` values and the `ORDER BY
RANDOM()` permutation choice.  A triangular draw over `[0, n-1]` always lies
in that range, which the embedding realizes by clamping the oracle value. -/
structure Rand where
  pickNew : Bool
  chooseRecent : Bool
  draws : List ℕ

/-- Consume one oracle draw. -/
def takeDraw : List ℕ → ℕ × List ℕ
  | [] => (0, [])
  | d :: ds => (d, ds)

/-- The `stats` sub-dictionary of the fallback item. -/
structure Stats where
  total : ℕ
  mastered : ℕ
  mastery_threshold : ℤ
  mastery_percent : ℤ

/-- The response dictionary of `pick_training_word` (keys absent from a given
path are `none`). -/
structure Item where
  type : Option String := none
  mode : Option String := none
  card_id : Option ℤ := none
  entry_id : Option ℤ := none
  term : Option String := none
  translation : Option String := none
  src_lang : Option String := none
  dst_lang : Option String := none
  detected_raw : Option String := none
  context_raw : Option String := none
  due_at : Option ℤ := none
  lapses : Option ℤ := none
  wrong_streak : Option ℤ := none
  timestamp : Option ℤ := none
  count : Option ℤ := none
  hard : Option ℤ := none
  stats : Option Stats := none
  day : Option ℤ := none
  today_done : Option ℕ := none
  streak_days : Option ℕ := none
  error : Option String := none

/-- Turn a candidate row into the response item with the given `mode`. -/
def pickRowToItem (r : PickRow) (mode : String) : Item :=
  { mode := some mode, card_id := r.card_id, entry_id := some r.entry_id,
    term := some r.term, translation := some r.translation,
    src_lang := some r.src_lang, dst_lang := some r.dst_lang,
    detected_raw := r.detected_raw, context_raw := some r.context_raw,
    due_at := r.due_at, lapses := r.lapses, wrong_streak := r.wrong_streak }

/-- The `finalize` closure of `pick_training_word`: attach the progress
snapshot and reconcile `context_raw` and `detected_raw`. -/
def finalizeItem (db : DB) (now : PyDateTime) (item : Item) : Item :=
  let progress := getProgress db now
  let item := { item with day := some progress.day,
                          today_done := some progress.today_done,
                          streak_days := some progress.streak_days }
  let ctx := pyStrip ((item.context_raw).getD "")
  let det := pyStrip ((item.detected_raw).getD "")
  let item := if ctx = "" && det ≠ "" then { item with context_raw := some det } else item
  let ctx := if ctx = "" && det ≠ "" then det else ctx
  let item := if det = "" && ctx ≠ "" then { item with detected_raw := some ctx } else item
  item

/-- The per-entry dictionary built by the fallback selection loop.
`entry_id` mirrors `int(row.get("entry_id") or row["id"])`, which is
`row["id"]` for the rows of `list_entries_for_training`. -/
structure FbEntry where
  entry_id : ℤ
  id : ℤ
  src : String
  word : String
  translation : String
  target_lang : String
  count : ℤ
  hard : ℤ
  last : PyDateTime
  bucket : String
  last_ts : ℤ := 0

lemma pyDateTime_ext_iff (a b : PyDateTime) :
    (a.ts = b.ts ∧ a.day = b.day) ↔ a = b := by
  cases a
  cases b
  simp

instance : DecidableEq PyDateTime := fun a b =>
  decidable_of_iff _ (pyDateTime_ext_iff a b)

lemma fbEntry_ext_iff (a b : FbEntry) :
    (a.entry_id = b.entry_id ∧ a.id = b.id ∧ a.src = b.src ∧ a.word = b.word ∧
      a.translation = b.translation ∧ a.target_lang = b.target_lang ∧
      a.count = b.count ∧ a.hard = b.hard ∧ a.last = b.last ∧
      a.bucket = b.bucket ∧ a.last_ts = b.last_ts) ↔ a = b := by
  cases a
  cases b
  simp

instance : DecidableEq FbEntry := fun a b => decidable_of_iff _ (fbEntry_ext_iff a b)

/-- Build the fallback dictionary for one entry row. -/
def mkFbEntry (cfg : TrainerConfig) (now : PyDateTime) (parseDt : ℤ → PyDateTime)
    (row : Entry) : FbEntry :=
  let lastStr := match row.last_used with | some l => l | none => row.created_at
  let dateDt := parseDt row.created_at
  let lastDt := parseDt lastStr
  let ageDays := now.day - dateDt.day
  let bucket := if ageDays ≤ cfg.recent_days then "recent" else "old"
  { entry_id := row.id, id := row.id, src := row.src_lang, word := row.term,
    translation := row.translation, target_lang := row.dst_lang,
    count := row.count, hard := row.hard, last := lastDt, bucket := bucket }

/-- The fallback sort key `(count, -hard, last_ts)` as a stable boolean
preorder. -/
def fbSortLe (a b : FbEntry) : Bool :=
  if a.count ≠ b.count then a.count < b.count
  else if a.hard ≠ b.hard then b.hard < a.hard
  else if a.last_ts ≠ b.last_ts then a.last_ts < b.last_ts
  else true

/-- `int(chosen.get("entry_id") or chosen.get("id") or 0)` in the re-roll
loop. -/
def fbChosenId (e : FbEntry) : ℤ :=
  if e.entry_id ≠ 0 then e.entry_id else if e.id ≠ 0 then e.id else 0

/-- The bounded `for _ in range(5)` re-roll loop that tries to avoid
returning the last-excluded entry again. -/
def rerollLoop : ℕ → List FbEntry → ℤ → FbEntry → List ℕ → FbEntry × List ℕ
  | 0, _, _, chosen, ds => (chosen, ds)
  | Nat.succ fuel, pool, eid, chosen, ds =>
    if fbChosenId chosen ≠ eid then (chosen, ds)
    else
      let (d, ds2) := takeDraw ds
      let idx := min d (pool.length - 1)
      rerollLoop fuel pool eid (pool.getD idx chosen) ds2

/-- The language set of the fallback selection (from `src_filter_u`). -/
def fbSrcLangs (srcFilter : Option String) : List String :=
  let srcFilterU := pyUpper ((srcFilter).getD "")
  if srcFilterU = "EN" || srcFilterU = "DA" then [srcFilterU] else ["EN", "DA"]

/-- Outcome of the pure selection phase of the fallback picker. -/
inductive FbSel where
  | noRows : FbSel
  | emptyPool : FbSel
  | chosen (e : FbEntry) (total mastered : ℕ) (masteryPercent : ℤ) : FbSel

/-- The selection phase of the legacy fallback of `pick_training_word`:
exclusion mapping, bucketing, pool choice, sort, triangular pick and the
re-roll loop.  It only reads the database.  `chooseRecent` models
`random.random() < recent_ratio`. -/
def fbSelect (cfg : TrainerConfig) (db : DB) (srcFilter : Option String)
    (now : PyDateTime) (parseDt : ℤ → PyDateTime)
    (excludeCardIds : Option (List ℤ)) (chooseRecent : Bool) (draws : List ℕ) :
    FbSel :=
  let excludeList := listTruthy excludeCardIds
  let excludeEntryIds : List ℤ :=
    if excludeList ≠ [] then
      (((db.trainingCards.filter fun c => excludeList.contains c.id).filterMap
        fun c => c.entry_id)).eraseDups
    else []
  let rows := listEntriesForTraining db (fbSrcLangs srcFilter)
  if rows = [] then .noRows
  else
    let pair :=
      if excludeEntryIds ≠ [] && decide (excludeEntryIds.length ≥ rows.length) then
        (([] : List ℤ), true)
      else (excludeEntryIds, false)
    let excludeEntryIds := pair.1
    let ignoreExclusions := pair.2
    let entries := (rows.filter fun r => !(excludeEntryIds.contains r.id)).map
      (mkFbEntry cfg now parseDt)
    let entries := if entries = [] then rows.map (mkFbEntry cfg now parseDt) else entries
    let total := entries.length
    let mastered := (entries.filter fun e => e.count ≥ cfg.mastery_count).length
    let masteryPercent : ℤ :=
      if total ≠ 0 then pyRound (((mastered : ℤ) * 100 : ℚ) / (total : ℚ)) else 0
    let recents := entries.filter fun e => e.bucket = "recent"
    let olds := entries.filter fun e => e.bucket = "old"
    let pool :=
      if recents = [] then olds
      else if olds = [] then recents
      else if chooseRecent then recents else olds
    let notMastered := pool.filter fun e => e.count < cfg.mastery_count
    let pool := if notMastered ≠ [] then notMastered else pool
    let pool := pool.map fun it => { it with last_ts := it.last.ts }
    let pool := sortBy fbSortLe pool
    match pool with
    | [] => .emptyPool
    | p0 :: prest =>
      let chosenDraws :=
        if prest = [] then (p0, draws)
        else
          let (d, ds) := takeDraw draws
          let idx := min d (pool.length - 1)
          (pool.getD idx p0, ds)
      let chosen := chosenDraws.1
      let draws := chosenDraws.2
      let chosenDraws :=
        if ignoreExclusions && excludeList ≠ [] && decide (pool.length > 1) then
          let lastEid : Option ℤ :=
            match excludeList.getLast? with
            | some cid => (db.trainingCards.find? fun c => c.id = cid).bind fun c => c.entry_id
            | none => none
          match lastEid with
          | some eid => rerollLoop 5 pool eid chosen draws
          | none => (chosen, draws)
        else (chosen, draws)
      .chosen chosenDraws.1 total mastered masteryPercent

/-- The legacy fallback of `pick_training_word` (the part after the SRS
pools found nothing): select an entry, ensure it has a card, and build the
`mode = "fallback"` item. -/
def pickFallback (cfg : TrainerConfig) (db : DB) (srcFilter : Option String)
    (now : PyDateTime) (nowS : ℤ) (parseDt : ℤ → PyDateTime)
    (excludeCardIds : Option (List ℤ)) (chooseRecent : Bool) (draws : List ℕ) :
    Except String (Item × DB) :=
  match fbSelect cfg db srcFilter now parseDt excludeCardIds chooseRecent draws with
  | .noRows => .ok ({ type := some "train", error := some "No entries for filter" }, db)
  | .emptyPool => .error "empty fallback pool"
  | .chosen chosen total mastered masteryPercent =>
    let chosenEntryId := if chosen.entry_id ≠ 0 then chosen.entry_id else chosen.id
    match ensureCardForEntryConn db chosenEntryId now.ts with
    | .error e => .error e
    | .ok (cardId, db2) =>
      let item : Item :=
        { mode := some "fallback", card_id := some cardId,
          entry_id := some chosenEntryId, term := some chosen.word,
          translation := some chosen.translation, src_lang := some chosen.src,
          dst_lang := some chosen.target_lang, timestamp := some nowS,
          count := some chosen.count, hard := some chosen.hard,
          stats := some { total := total, mastered := mastered,
                          mastery_threshold := cfg.mastery_count,
                          mastery_percent := masteryPercent } }
      .ok (finalizeItem db2 now item, db2)

/-- The language set used by the SRS pools
(`[src_filter] if src_filter else ["EN"]`, line 89 of the service). -/
def srsSrcLangs (srcFilter : Option String) : List String :=
  match optTruthy srcFilter with
  | some s => [s]
  | none => ["EN"]

/-- The probabilistic new-pool attempt of `pick_training_word` (step 3):
with the `pickNew` coin set, fetch one random uncarded entry, create its
card and return the `srs_new` item. -/
def newPoolAttempt (db : DB) (srcLangs : List String) (nowTs : ℤ)
    (now : PyDateTime) (rand : Rand) :
    Option (Except String (Item × DB)) × List ℕ :=
  if rand.pickNew then
    match takeDraw rand.draws with
    | (d1, ds) =>
      match listNewEntriesConn d1 db srcLangs 1 with
      | r :: _ =>
        (match ensureCardForEntryConn db r.entry_id nowTs with
         | .error e => (some (.error e), ds)
         | .ok (cardId, db2) =>
           (some (.ok (finalizeItem db2 now
             { pickRowToItem r "srs_new" with card_id := some cardId }, db2)), ds))
      | [] => (none, ds)
  else (none, rand.draws)

/-- `pick_training_word(src_filter, now, now_s, parse_dt, exclude_card_ids)`,
continued past the raise: the SRS pools use the language set `srsSrcLangs`
and the hard limit is the constant 5 (see `TrainerConfig`).  The source
invokes `_list_hard_entries_conn` with an `allow_future=True` keyword the
repository method does not declare, which raises `TypeError`, so in the
program everything from the hard pool on is dead code; this definition
applies the method to the arguments it accepts (see `listHardEntriesConn`)
and continues, describing the code as written.  `pickTrainingWordReal`
models the raise itself; `pickTrainingWordReal_ok_imp` shows every
successful run of the program is a run of this definition, so frame
theorems proved over it cover all real executions. -/
def pickTrainingWord (cfg : TrainerConfig) (db : DB) (srcFilter : Option String)
    (now : PyDateTime) (nowS : ℤ) (parseDt : ℤ → PyDateTime)
    (excludeCardIds : Option (List ℤ)) (rand : Rand) : Except String (Item × DB) :=
  let srcLangs := srsSrcLangs srcFilter
  let nowTs := now.ts
  match listDueEntriesConn db srcLangs nowTs 1 excludeCardIds with
  | r :: _ => .ok (finalizeItem db now (pickRowToItem r "srs_due"), db)
  | [] =>
    match newPoolAttempt db srcLangs nowTs now rand with
    | (some res, _) => res
    | (none, draws1) =>
      let hardN : ℤ := 5
      match listHardEntriesConn db srcLangs nowTs (max 1 hardN).toNat excludeCardIds with
      | h0 :: hrest =>
        let hard := h0 :: hrest
        let top := hard.take (max 1 (min hard.length 5))
        let itemDraws :=
          if top.length = 1 then (h0, draws1)
          else
            let (d, ds) := takeDraw draws1
            let idx := min d (top.length - 1)
            (top.getD idx h0, ds)
        .ok (finalizeItem db now (pickRowToItem itemDraws.1 "srs_hard"), db)
      | [] =>
        pickFallback cfg db srcFilter now nowS parseDt excludeCardIds
          rand.chooseRecent draws1

/-- `pick_training_word` as the program actually executes: the due pool,
then the probabilistic new-pool attempt, and then the call
`self.repo._list_hard_entries_conn(conn, src_langs, now_ts, limit=...,
allow_future=True)` of `trainer_service.py`, which raises `TypeError`
because the repository method declares no `allow_future` parameter and
`SQLiteRepo.tx()` re-raises; the hard pool and the legacy fallback after it
are unreachable. -/
def pickTrainingWordReal (cfg : TrainerConfig) (db : DB) (srcFilter : Option String)
    (now : PyDateTime) (nowS : ℤ) (parseDt : ℤ → PyDateTime)
    (excludeCardIds : Option (List ℤ)) (rand : Rand) : Except String (Item × DB) :=
  let srcLangs := srsSrcLangs srcFilter
  let nowTs := now.ts
  match listDueEntriesConn db srcLangs nowTs 1 excludeCardIds with
  | r :: _ => .ok (finalizeItem db now (pickRowToItem r "srs_due"), db)
  | [] =>
    match newPoolAttempt db srcLangs nowTs now rand with
    | (some res, _) => res
    | (none, _) =>
      .error "TypeError: _list_hard_entries_conn() got an unexpected keyword argument allow_future"

/-! ## Translation service (`services/translation_service.py`) -/

/-- The regex `^[A-Za-z][A-Za-z'\-]*$` used by `_mw_src_lang`. -/
def isLatinWord (s : String) : Bool :=
  match s.toList with
  | [] => false
  | c :: cs =>
    (c.isAlpha) && cs.all fun d => d.isAlpha || d = '-' || d = '\x27'

/-- `_mw_src_lang(term, src_hint, detected_lang)`. -/
def mwSrcLang (term srcHint detectedLang : String) : String :=
  if srcHint ≠ "" then pyUpper srcHint
  else if detectedLang ≠ "" then pyUpper detectedLang
  else if term ≠ "" && isLatinWord term then "EN"
  else ""

/-- The injected dependencies of the translation service.  `deeplCall` maps
`(text, target_lang, context)` to `(translation, detected_source, error)`;
`ensureMw` models the body of `_ensure_mw_definitions` after its `EN` gate:
per the source that body reads and writes only the `mw_definitions` table
(through `get_mw_definitions` / `upsert_mw_definitions`) and schedules a
background prefetch, so it is abstracted as an injected transformer of that
table, wrapping the injected `mw_fetch` it calls. -/
structure TranslationDeps where
  deeplCall : String → String → String → String × String × Option String
  normalizeSrcLang : String → String → String
  ctxHash : String → String
  ensureMw : String → String → ℤ → List MwRow → Option String × List MwRow

/-- `TranslationService._ensure_mw_definitions(term, src_lang, now_s)`:
normalize the source language and run only for `"EN"`. -/
def ensureMwDefinitions (deps : TranslationDeps) (term srcLang : String) (nowS : ℤ)
    (mw : List MwRow) : Option String × List MwRow :=
  let srcU := pyUpper (pyStrip srcLang)
  if srcU ≠ "EN" then (none, mw)
  else deps.ensureMw term srcU nowS mw

/-- The `WordResult` dictionary returned by `translate_word` (keys absent on
a given path are `none`). -/
structure WordResult where
  type : String := "word"
  source : String
  text : String
  target_lang : String
  detected_source_lang : String
  from_cache : Bool
  timestamp : ℤ
  last_used : ℤ
  count : ℤ
  error : Option String
  mw_definitions : Option String
  context_used : Bool
  cache_source : Option String
  context_raw : Option String := none
  ctx_translations : Option (List String) := none

/-- `translate_word(word, target_lang, src_hint, now_s, context)`. -/
def translateWord (deps : TranslationDeps) (db : DB) (word targetLang srcHint : String)
    (nowS : ℤ) (context : String) : WordResult × DB :=
  let targetLang := pyUpper (if targetLang = "" then "RU" else targetLang)
  let ctxText := pyCollapse context
  if ctxText ≠ "" then
    let srcExpected := if pyUpper srcHint = "" then "EN" else pyUpper srcHint
    let srcForMw := mwSrcLang word srcHint srcExpected
    let h := deps.ctxHash ctxText
    match getCtxEntry db word (some srcExpected) targetLang h with
    | some cached =>
      let db := touchCtxUsage db word srcExpected targetLang h nowS
      let db :=
        if (getBaseEntryAnySrc db word targetLang none).isNone then
          upsertBaseEntry db word cached.translation cached.src_lang targetLang "" nowS
            (some context)
        else db
      let mwPair := ensureMwDefinitions deps word srcForMw nowS db.mwDefs
      let db := { db with mwDefs := mwPair.2 }
      let alts := listCtxTranslations db word cached.src_lang targetLang 10
      ({ source := word, text := cached.translation, target_lang := targetLang,
         detected_source_lang := cached.src_lang, from_cache := true,
         timestamp := cached.created_at, last_used := nowS, count := cached.count + 1,
         error := none, mw_definitions := mwPair.1, context_used := true,
         cache_source := some "context", context_raw := some cached.ctx_text,
         ctx_translations := some alts }, db)
    | none =>
      let call := deps.deeplCall word targetLang ctxText
      let tr := call.1
      let detected := call.2.1
      match call.2.2 with
      | some msg =>
        ({ source := word, text := "", target_lang := targetLang,
           detected_source_lang := "", from_cache := false, timestamp := nowS,
           last_used := nowS, count := 0, error := some msg, mw_definitions := none,
           context_used := true, cache_source := none, context_raw := some ctxText }, db)
      | none =>
        let src := deps.normalizeSrcLang detected srcHint
        let db := upsertBaseEntry db word tr src targetLang detected nowS (some context)
        let db :=
          if ctxText ≠ "" then upsertCtxEntry db word tr src targetLang h nowS ctxText
          else db
        let alts := listCtxTranslations db word src targetLang 10
        let mwPair := ensureMwDefinitions deps word src nowS db.mwDefs
        let db := { db with mwDefs := mwPair.2 }
        ({ source := word, text := tr, target_lang := targetLang,
           detected_source_lang := src, from_cache := false, timestamp := nowS,
           last_used := nowS, count := 1, error := none, mw_definitions := mwPair.1,
           context_used := true, cache_source := none, context_raw := some ctxText,
           ctx_translations := some alts }, db)
  else
    match getBaseEntryAnySrc db word targetLang (some srcHint) with
    | some row =>
      let db := touchBaseUsage db row.id nowS
      let srcForMw := mwSrcLang word srcHint row.src_lang
      let mwPair := ensureMwDefinitions deps word srcForMw nowS db.mwDefs
      let db := { db with mwDefs := mwPair.2 }
      let alts := listCtxTranslations db word row.src_lang targetLang 10
      ({ source := word, text := row.translation, target_lang := targetLang,
         detected_source_lang := row.src_lang, from_cache := true,
         timestamp := row.created_at, last_used := nowS, count := row.count + 1,
         error := none, mw_definitions := mwPair.1, context_used := false,
         cache_source := some "base", ctx_translations := some alts }, db)
    | none =>
      let call := deps.deeplCall word targetLang ""
      let tr := call.1
      let detected := call.2.1
      match call.2.2 with
      | some msg =>
        ({ source := word, text := "", target_lang := targetLang,
           detected_source_lang := "", from_cache := false, timestamp := nowS,
           last_used := nowS, count := 0, error := some msg, mw_definitions := none,
           context_used := false, cache_source := none }, db)
      | none =>
        let src := deps.normalizeSrcLang detected srcHint
        let db := upsertBaseEntry db word tr src targetLang detected nowS (some context)
        let mwPair := ensureMwDefinitions deps word src nowS db.mwDefs
        let db := { db with mwDefs := mwPair.2 }
        ({ source := word, text := tr, target_lang := targetLang,
           detected_source_lang := src, from_cache := false, timestamp := nowS,
           last_used := nowS, count := 1, error := none, mw_definitions := mwPair.1,
           context_used := false, cache_source := none }, db)

/-! ## Audio routes (`api/routes/mw_audio.py`) -/

/-- The `audio_id` validation shared verbatim by `mw_audio_play` and
`mw_audio_file`: strip, reject empty, reject the characters
`/ \ space tab newline` with HTTP 400 (`none`); otherwise the request
proceeds with the stripped id (`some`). -/
def audioIdValidate (audioId : String) : Option String :=
  let a := pyStrip audioId
  if a = "" then none
  else if a.toList.any (fun c => c ∈ (['/', '\\', ' ', '\t', '\n'] : List Char)) then none
  else some a

/-! ## CLI dispatcher (`cli/dispatcher.py`) -/

/-- `normalize_src_lang(detected, src_hint)`. -/
def normalizeSrcLang (detected srcHint : String) : String :=
  let code := pyUpper detected
  let hint := pyUpper srcHint
  if code.startsWith "EN" then "EN"
  else if code.startsWith "DA" then "DA"
  else if hint = "EN" || hint = "DA" then hint
  else "EN"

/-! ## Specification-side definitions (stated from the claims' words, for
refinement comparisons) -/

/-- Claim C1's interval formula, taken verbatim from the spec: 1 when
`reps ≤ 1`, 3 when `reps = 2`, else `round(prev_interval * ef)` with
floor 1. -/
def specIntervalClaim (reps prevInterval : ℤ) (ef : ℚ) : ℤ :=
  if reps ≤ 1 then 1
  else if reps = 2 then 3
  else max 1 (pyRound ((prevInterval : ℚ) * ef))

/-- Claim C9's pattern `[A-Za-z0-9][A-Za-z0-9_]*`. -/
def specAudioIdPattern (s : String) : Bool :=
  match s.toList with
  | [] => false
  | c :: cs => c.isAlphanum && cs.all fun d => d.isAlphanum || d = '_'

/-- Day `d` has at least one review in `rs` (claim C8). -/
def hasReviewOn (rs : List Review) (d : ℤ) : Prop :=
  ∃ r ∈ rs, r.day = d

instance (rs : List Review) (d : ℤ) : Decidable (hasReviewOn rs d) := by
  unfold hasReviewOn; infer_instance

/-- Claim C8's streak characterization: `k` is the largest count such that
each of the `k` consecutive days `d, d-1, …, d-k+1` has at least one
review. -/
def IsLargestStreak (rs : List Review) (d : ℤ) (k : ℕ) : Prop :=
  (∀ i : ℕ, i < k → hasReviewOn rs (d - i)) ∧ ¬ hasReviewOn rs (d - k)

/-- Claim C3's invariant on a variant row: the normalized translation,
case-folded, differs from the case-folded term. -/
def VariantOk (v : VariantRow) : Prop :=
  pyCasefold (normTranslation v.translation) ≠ pyCasefold v.term

/-! ## Auxiliary frame lemmas -/

lemma upsertCtxRowStep_entries (db : DB) (t tr s d h : String) (n : ℤ) (c : String) :
    (upsertCtxRowStep db t tr s d h n c).entries = db.entries := by
  unfold upsertCtxRowStep
  dsimp only
  split <;> rfl

lemma evictCtxStep_entries (db : DB) (t s d h : String) :
    (evictCtxStep db t s d h).entries = db.entries := rfl

lemma upsertCtxEntry_entries (db : DB) (t tr s d h : String) (n : ℤ) (c : String) :
    (upsertCtxEntry db t tr s d h n c).entries = db.entries := by
  unfold upsertCtxEntry
  dsimp only
  split
  · rw [evictCtxStep_entries]
    exact upsertCtxRowStep_entries ..
  · rw [evictCtxStep_entries]
    exact upsertCtxRowStep_entries ..

/-- `upsert_base_entry` either bumps a row in place (keeping its key) or
appends a row with exactly the supplied key. -/
lemma upsertBaseEntry_entries_mem (db : DB) (term translation src dst detectedRaw : String)
    (nowS : ℤ) (context : Option String) :
    ∀ e ∈ (upsertBaseEntry db term translation src dst detectedRaw nowS context).entries,
      (∃ e0 ∈ db.entries, e0.term = e.term ∧ e0.src_lang = e.src_lang ∧
        e0.dst_lang = e.dst_lang)
      ∨ (e.term = term ∧ e.src_lang = src ∧ e.dst_lang = dst) := by
  intro e he
  unfold upsertBaseEntry at he
  dsimp only at he
  split at he
  · simp only [List.mem_map] at he
    obtain ⟨e0, he0, hfe⟩ := he
    refine Or.inl ⟨e0, he0, ?_⟩
    rw [← hfe]
    refine ⟨?_, ?_, ?_⟩ <;> (dsimp only; split <;> rfl)
  · simp only [List.mem_append, List.mem_singleton] at he
    rcases he with he | he
    · exact Or.inl ⟨e, he, rfl, rfl, rfl⟩
    · subst he
      exact Or.inr ⟨rfl, rfl, rfl⟩

/-- `touch_base_usage` never changes a base row's key. -/
lemma touchBaseUsage_entries_mem (db : DB) (entryId nowS : ℤ) :
    ∀ e ∈ (touchBaseUsage db entryId nowS).entries,
      ∃ e0 ∈ db.entries, e0.term = e.term ∧ e0.src_lang = e.src_lang ∧
        e0.dst_lang = e.dst_lang := by
  intro e he
  unfold touchBaseUsage at he
  dsimp only at he
  simp only [List.mem_map] at he
  obtain ⟨e0, he0, hfe⟩ := he
  refine ⟨e0, he0, ?_⟩
  rw [← hfe]
  refine ⟨?_, ?_, ?_⟩ <;> (dsimp only; split <;> rfl)

/-! ## Claim C10 -/

/-- Claim C10: `normalize_src_lang` always returns `"EN"` or `"DA"`, and on
`translate_word`'s provider paths (wired with the dispatcher's
`normalize_src_lang`, and outside the context-cache-hit shortcut) every
base-cache row of the resulting state either keeps the key of a
pre-existing row or carries `src_lang` equal to `"EN"` or `"DA"`; in
particular every row the provider-miss paths insert is normalized. -/
theorem C10_normalize_src_lang :
    (∀ detected srcHint, normalizeSrcLang detected srcHint = "EN" ∨
        normalizeSrcLang detected srcHint = "DA")
    ∧ ∀ (deps : TranslationDeps) (db : DB) (word targetLang srcHint : String)
        (nowS : ℤ) (context : String),
        deps.normalizeSrcLang = normalizeSrcLang →
        (pyCollapse context ≠ "" →
          getCtxEntry db word (some (if pyUpper srcHint = "" then "EN" else pyUpper srcHint))
            (pyUpper (if targetLang = "" then "RU" else targetLang))
            (deps.ctxHash (pyCollapse context)) = none) →
        ∀ e ∈ ((translateWord deps db word targetLang srcHint nowS context).2).entries,
          (∃ e0 ∈ db.entries, e0.term = e.term ∧ e0.src_lang = e.src_lang ∧
            e0.dst_lang = e.dst_lang)
          ∨ e.src_lang = "EN" ∨ e.src_lang = "DA" := by
  have part1 : ∀ detected srcHint, normalizeSrcLang detected srcHint = "EN" ∨
      normalizeSrcLang detected srcHint = "DA" := by
    intro detected srcHint
    unfold normalizeSrcLang
    dsimp only
    by_cases h1 : ((pyUpper detected).startsWith "EN") = true
    · simp [h1]
    · by_cases h2 : ((pyUpper detected).startsWith "DA") = true
      · simp [h1, h2]
      · by_cases h3 : pyUpper srcHint = "EN"
        · simp [h1, h2, h3]
        · by_cases h4 : pyUpper srcHint = "DA"
          · simp [h1, h2, h3, h4]
          · simp [h1, h2, h3, h4]
  refine ⟨part1, ?_⟩
  intro deps db word targetLang srcHint nowS context hnorm hmiss e he
  unfold translateWord at he
  by_cases hctx : pyCollapse context = ""
  · simp only [hctx, ne_eq, not_true_eq_false, if_false] at he
    rcases hbase : getBaseEntryAnySrc db word
        (pyUpper (if targetLang = "" then "RU" else targetLang)) (some srcHint) with _ | row
    · rw [hbase] at he
      dsimp only at he
      rcases herr : (deps.deeplCall word
          (pyUpper (if targetLang = "" then "RU" else targetLang)) "").2.2 with _ | msg
      · rw [herr] at he
        dsimp only at he
        rcases upsertBaseEntry_entries_mem db word _ _ _ _ nowS (some context) e he with
          h | ⟨_, hsrc, _⟩
        · exact Or.inl h
        · rw [hnorm] at hsrc
          exact Or.inr (hsrc ▸ part1 _ _)
      · rw [herr] at he
        exact Or.inl ⟨e, he, rfl, rfl, rfl⟩
    · rw [hbase] at he
      dsimp only at he
      exact Or.inl (touchBaseUsage_entries_mem db row.id nowS e he)
  · simp only [hctx, ne_eq, not_false_eq_true, if_true] at he
    rw [hmiss hctx] at he
    dsimp only at he
    rcases herr : (deps.deeplCall word
        (pyUpper (if targetLang = "" then "RU" else targetLang)) (pyCollapse context)).2.2 with
      _ | msg
    · rw [herr] at he
      simp only [hctx, ne_eq, not_false_eq_true, if_true, upsertCtxEntry_entries] at he
      rcases upsertBaseEntry_entries_mem db word _ _ _ _ nowS (some context) e he with
        h | ⟨_, hsrc, _⟩
      · exact Or.inl h
      · rw [hnorm] at hsrc
        exact Or.inr (hsrc ▸ part1 _ _)
    · rw [herr] at he
      exact Or.inl ⟨e, he, rfl, rfl, rfl⟩

/-- An empty database (fresh schema). -/
def dbEmpty : DB :=
  { entries := [], entriesCtx := [], entryTranslations := [], mwDefs := [],
    trainingCards := [], trainingReviews := [], nextEntryId := 1, nextCtxId := 1,
    nextCardId := 1 }

/-- Concrete dependencies used by witnesses: a fixed-response provider wired
with the dispatcher hooks. -/
def depsW : TranslationDeps :=
  { deeplCall := fun _ _ _ => ("yabloko", "EN", none)
    normalizeSrcLang := normalizeSrcLang
    ctxHash := fun s => s
    ensureMw := fun _ _ _ mw => (none, mw) }

/-- Witness for claim C10 at a concrete input. -/
theorem C10_witness :
    ∀ e ∈ ((translateWord depsW dbEmpty "apple" "ru" "" 0 "").2).entries,
      (∃ e0 ∈ dbEmpty.entries, e0.term = e.term ∧ e0.src_lang = e.src_lang ∧
        e0.dst_lang = e.dst_lang)
      ∨ e.src_lang = "EN" ∨ e.src_lang = "DA" :=
  C10_normalize_src_lang.2 depsW dbEmpty "apple" "ru" "" 0 "" rfl
    (fun hc => absurd rfl hc)

/-! ## Claim C9 -/

lemma space_not_alnum (c : Char) (hsp : pyIsSpace c = true) :
    (c.isAlphanum || c = '_') = false := by
  unfold pyIsSpace at hsp
  simp only [Bool.or_eq_true, decide_eq_true_eq] at hsp
  rcases hsp with ((((rfl | rfl) | rfl) | rfl) | rfl) | rfl <;> decide

lemma blacklist_not_alnum (c : Char)
    (hc : c ∈ (['/', '\\', ' ', '\t', '\n'] : List Char)) :
    (c.isAlphanum || c = '_') = false := by
  simp only [List.mem_cons, List.not_mem_nil, or_false] at hc
  rcases hc with rfl | rfl | rfl | rfl | rfl <;> decide

lemma dropWhile_eq_self_of (p : Char → Bool) (l : List Char)
    (h : ∀ c ∈ l, p c = false) : l.dropWhile p = l := by
  cases l with
  | nil => rfl
  | cons a t =>
    rw [List.dropWhile_cons]
    simp [h a (List.mem_cons_self a t)]

lemma stripEndsP_eq_self (p : Char → Bool) (l : List Char)
    (h : ∀ c ∈ l, p c = false) : stripEndsP p l = l := by
  unfold stripEndsP
  rw [dropWhile_eq_self_of p l h,
      dropWhile_eq_self_of p l.reverse (fun c hc => h c (List.mem_reverse.mp hc)),
      List.reverse_reverse]

lemma mk_toList (s : String) : String.mk s.toList = s := rfl

/-- Claim C9, counterexample: `"a.b"` contains `'.'`, a character outside
`[A-Za-z0-9][A-Za-z0-9_]*`, yet both audio routes accept it (no HTTP 400). -/
theorem C9_counterexample :
    audioIdValidate "a.b" = some "a.b" ∧ specAudioIdPattern "a.b" = false := by
  constructor <;> rfl

/-- Claim C9 as amended: after stripping surrounding whitespace, an
`audio_id` is rejected with HTTP 400 exactly when it is empty or contains
`'/'`, `'\'`, a space, a tab, or a newline; every id matching
`[A-Za-z0-9][A-Za-z0-9_]*` is accepted, but ids with other characters
(such as `'.'`) are accepted as well. -/
theorem C9_amended_validation :
    (∀ s, specAudioIdPattern s = true → audioIdValidate s = some s) ∧
    (∀ s c, c ∈ (pyStrip s).toList →
      c ∈ (['/', '\\', ' ', '\t', '\n'] : List Char) → audioIdValidate s = none) ∧
    (∀ s, audioIdValidate s = none ↔
      (pyStrip s = "" ∨ ∃ c ∈ (pyStrip s).toList,
        c ∈ (['/', '\\', ' ', '\t', '\n'] : List Char))) := by
  refine ⟨?_, ?_, ?_⟩
  · intro s hs
    unfold specAudioIdPattern at hs
    rcases hl : s.toList with _ | ⟨c, cs⟩
    · rw [hl] at hs; cases hs
    · rw [hl] at hs
      simp only [Bool.and_eq_true, List.all_eq_true] at hs
      have hall : ∀ d ∈ s.toList, (d.isAlphanum || d = '_') = true := by
        intro d hd
        rw [hl] at hd
        rcases List.mem_cons.mp hd with rfl | hd
        · simp [hs.1]
        · exact hs.2 d hd
      have hnos : ∀ d ∈ s.toList, pyIsSpace d = false := by
        intro d hd
        by_contra hsp
        have := space_not_alnum d (by revert hsp; cases pyIsSpace d <;> simp)
        rw [hall d hd] at this
        cases this
      have hstrip : pyStrip s = s := by
        unfold pyStrip
        rw [stripEndsP_eq_self _ _ hnos, mk_toList]
      unfold audioIdValidate
      rw [hstrip]
      have hne : ¬ s = "" := by
        intro h
        rw [h] at hl
        cases hl
      rw [if_neg hne]
      have hnobl : (s.toList.any
          fun c => decide (c ∈ (['/', '\\', ' ', '\t', '\n'] : List Char))) = false := by
        by_contra hany
        have hany2 : (s.toList.any
            fun c => decide (c ∈ (['/', '\\', ' ', '\t', '\n'] : List Char))) = true := by
          revert hany
          cases s.toList.any fun c => decide (c ∈ (['/', '\\', ' ', '\t', '\n'] : List Char)) <;>
            simp
        obtain ⟨d, hd, hm⟩ := List.any_eq_true.mp hany2
        have := blacklist_not_alnum d (of_decide_eq_true hm)
        rw [hall d hd] at this
        cases this
      rw [hnobl]
      simp
  · intro s c hc hbl
    unfold audioIdValidate
    have hne : ¬ pyStrip s = "" := by
      intro h
      rw [h] at hc
      cases hc
    rw [if_neg hne, if_pos ?_]
    exact List.any_eq_true.mpr ⟨c, hc, by simpa using hbl⟩
  · intro s
    unfold audioIdValidate
    by_cases he : pyStrip s = ""
    · simp [he]
    · rw [if_neg he]
      by_cases ha : ((pyStrip s).toList.any
          fun c => decide (c ∈ (['/', '\\', ' ', '\t', '\n'] : List Char))) = true
      · rw [if_pos ha]
        obtain ⟨c, hc, hm⟩ := List.any_eq_true.mp ha
        constructor
        · intro _
          exact Or.inr ⟨c, hc, of_decide_eq_true hm⟩
        · intro _
          rfl
      · rw [if_neg ha]
        constructor
        · intro h; cases h
        · rintro (h | ⟨c, hc, hm⟩)
          · exact absurd h he
          · exact absurd (List.any_eq_true.mpr ⟨c, hc, decide_eq_true hm⟩) ha

/-- Witness for claim C9 at concrete inputs. -/
theorem C9_witness :
    audioIdValidate "abc1" = some "abc1" ∧ audioIdValidate "a/b" = none :=
  ⟨C9_amended_validation.1 "abc1" (by decide),
   C9_amended_validation.2.1 "a/b" '/' (by decide) (by decide)⟩

/-! ## Claim C1 -/

lemma one_le_nextIntervalDays (reps prevInterval : ℤ) (ef : ℚ) :
    1 ≤ nextIntervalDays reps prevInterval ef := by
  unfold nextIntervalDays
  split_ifs
  · exact le_refl 1
  · norm_num
  · exact le_max_left 1 _

lemma computeSrs_basic (card : CardSrsView) (grade nowTs : ℤ) :
    (computeSrs card grade nowTs).last_review_at = nowTs ∧
    1 ≤ (computeSrs card grade nowTs).interval_days ∧
    (computeSrs card grade nowTs).due_at =
      nowTs + (computeSrs card grade nowTs).interval_days * 86400 := by
  unfold computeSrs
  dsimp only
  split
  · refine ⟨rfl, by norm_num, ?_⟩
    dsimp only
    ring
  · exact ⟨rfl, one_le_nextIntervalDays .., rfl⟩

lemma normalizeSrsForStore_id (wallTs : ℤ) (s : Srs)
    (h1 : s.due_at ≤ 10000000000) (h2 : s.last_review_at ≤ 10000000000)
    (h3 : wallTs - 86400 * 365 ≤ s.due_at) :
    normalizeSrsForStore wallTs s = s := by
  unfold normalizeSrsForStore
  have ha : ¬ s.due_at > 10000000000 := by omega
  have hb : ¬ s.last_review_at > 10000000000 := by omega
  have hcl : ¬ s.due_at < wallTs - 31536000 := by omega
  simp [ha, hb, hcl]

/-- The training card of the C1 counterexample: a card whose stored
`interval_days` is 0 while `reps = 2` (the state a freshly created card
carries before its interval is ever set). -/
def c1Card : Card :=
  { id := 1, entry_id := none, src_lang := some "EN", reps := some 2,
    lapses := some 0, ef := some (5/2), interval_days := some 0,
    due_at := some 500, last_review_at := none, last_grade := none,
    correct_streak := some 0, wrong_streak := some 0, suspended := some 0 }

/-- Database of the C1 counterexample. -/
def c1Db : DB :=
  { entries := [], entriesCtx := [], entryTranslations := [], mwDefs := [],
    trainingCards := [c1Card], trainingReviews := [], nextEntryId := 1,
    nextCtxId := 1, nextCardId := 2 }

/-- After `_update_training_card_srs_conn`, the SRS view of the targeted
card carries exactly the normalized state. -/
lemma view_after_update (wallTs : ℤ) (db : DB) (cardId : ℤ) (s : Srs)
    (hex : ∃ c0 ∈ db.trainingCards, c0.id = cardId) :
    ∃ stored,
      getTrainingCardSrsView (updateTrainingCardSrsConn wallTs db cardId s) cardId =
        some stored ∧
      stored.reps = some (normalizeSrsForStore wallTs s).reps ∧
      stored.lapses = some (normalizeSrsForStore wallTs s).lapses ∧
      stored.ef = some (normalizeSrsForStore wallTs s).ef ∧
      stored.interval_days = some (normalizeSrsForStore wallTs s).interval_days ∧
      stored.due_at = some (normalizeSrsForStore wallTs s).due_at ∧
      stored.last_review_at = some (normalizeSrsForStore wallTs s).last_review_at ∧
      stored.correct_streak = some (normalizeSrsForStore wallTs s).correct_streak ∧
      stored.wrong_streak = some (normalizeSrsForStore wallTs s).wrong_streak := by
  obtain ⟨c0, hc0, hid⟩ := hex
  unfold getTrainingCardSrsView updateTrainingCardSrsConn
  dsimp only
  generalize db.trainingCards = l at hc0 ⊢
  induction l with
  | nil => cases hc0
  | cons a t ih =>
    rw [List.map_cons]
    by_cases h : a.id = cardId
    · rw [List.find?_cons_of_pos _ (by simp [h])]
      refine ⟨_, rfl, ?_, ?_, ?_, ?_, ?_, ?_, ?_, ?_⟩ <;> simp [h]
    · rw [List.find?_cons_of_neg _ (by simp [h])]
      rcases List.mem_cons.mp hc0 with rfl | hmem
      · exact absurd hid h
      · exact ih hmem

/-- The SRS view of `c1Card`. -/
def c1View : CardSrsView :=
  { id := 1, reps := some 2, lapses := some 0, ef := some (5/2),
    interval_days := some 0, due_at := some 500, last_review_at := none,
    last_grade := none, correct_streak := some 0, wrong_streak := some 0,
    suspended := some 0 }

/-- The state `compute_srs` produces for `c1Card` graded 5 at time 1000. -/
def c1Srs : Srs :=
  { reps := 3, lapses := 0, ef := 13/5, interval_days := 3, due_at := 260200,
    last_review_at := 1000, last_grade := 5, correct_streak := 1,
    wrong_streak := 0 }

lemma c1_computeSrs : computeSrs c1View 5 1000 = c1Srs := by
  have hef : updateEf (orEf c1View.ef) 5 = 13/5 := by
    have h1 : orEf c1View.ef +
        (1/10 - ((5 - (5 : ℤ) : ℤ) : ℚ) * (8/100 + ((5 - (5 : ℤ) : ℤ) : ℚ) * (2/100))) =
          13/5 := by
      norm_num [orEf, c1View]
    unfold updateEf
    rw [h1, max_eq_right (by norm_num)]
  have hpr : pyRound (((1 : ℤ) : ℚ) * (13/5 : ℚ)) = 3 := by
    have hfl : ⌊((1 : ℤ) : ℚ) * (13/5 : ℚ)⌋ = 2 := by
      norm_num
    unfold pyRound
    rw [hfl]
    norm_num
  unfold computeSrs
  rw [if_neg (by norm_num : ¬ (5 : ℤ) < 3)]
  dsimp only
  rw [hef]
  have hnid : nextIntervalDays (orInt c1View.reps + 1)
      (max 1 (orInt c1View.interval_days)) (13/5) = 3 := by
    have h2 : orInt c1View.reps + 1 = 3 := by norm_num [orInt, c1View]
    have h3 : max 1 (orInt c1View.interval_days) = 1 := by norm_num [orInt, c1View]
    rw [h2, h3]
    unfold nextIntervalDays
    rw [if_neg (by norm_num), if_neg (by norm_num)]
    rw [(by norm_num : ((1 : ℤ) : ℚ) = (((1 : ℤ) : ℚ))), hpr]
    norm_num
  rw [hnid]
  unfold c1Srs c1View orInt
  norm_num

/-- Claim C1, counterexample: grading the card of `c1Db` with 5 stores
`interval_days = 3` (the code multiplies `ef` by `max(1, prev_interval)`),
whereas the claim's formula `round(prev_interval · ef)` with floor 1 gives
1 for `prev_interval = 0`, new `reps = 3`, new `ef = 2.6`. -/
theorem C1_counterexample :
    ∃ s db2, reviewTrainingCard c1Db 1 5 ⟨1000, 0⟩ 1000 = .ok (s, db2) ∧
      s.reps = 3 ∧ s.ef = 13/5 ∧ s.interval_days = 3 ∧
      (∃ stored, getTrainingCardSrsView db2 1 = some stored ∧
        stored.interval_days = some 3) ∧
      specIntervalClaim 3 0 (13/5) = 1 ∧ (3 : ℤ) ≠ 1 := by
  have hview : getTrainingCardSrsView c1Db 1 = some c1View := rfl
  have hrun : reviewTrainingCard c1Db 1 5 ⟨1000, 0⟩ 1000 =
      .ok (c1Srs, updateTrainingCardSrsConn 1000
        (insertTrainingReviewConn c1Db 1 1000 5 0) 1 c1Srs) := by
    unfold reviewTrainingCard
    rw [hview]
    dsimp only
    rw [if_neg (by decide : ¬ ((5 : ℤ) < 0 || 5 < (5 : ℤ)) = true),
        if_neg (by decide : ¬ orInt c1View.suspended = 1), c1_computeSrs]
    rfl
  refine ⟨c1Srs, _, hrun, rfl, rfl, rfl, ?_, ?_, by decide⟩
  · have hex : ∃ c0 ∈ (insertTrainingReviewConn c1Db 1 1000 5 0).trainingCards,
        c0.id = 1 := ⟨c1Card, by simp [insertTrainingReviewConn, c1Db], rfl⟩
    obtain ⟨stored, hst, _, _, _, h4, _⟩ :=
      view_after_update 1000 (insertTrainingReviewConn c1Db 1 1000 5 0) 1 c1Srs hex
    have hnorm : normalizeSrsForStore 1000 c1Srs = c1Srs := by
      refine normalizeSrsForStore_id 1000 c1Srs ?_ ?_ ?_ <;> norm_num [c1Srs]
    refine ⟨stored, ?_, ?_⟩
    · exact hst
    · rw [h4, hnorm]
      rfl
  · unfold specIntervalClaim
    rw [if_neg (by norm_num), if_neg (by norm_num)]
    have : pyRound (((0 : ℤ) : ℚ) * (13/5 : ℚ)) = 0 := by
      have hfl : ⌊((0 : ℤ) : ℚ) * (13/5 : ℚ)⌋ = 0 := by norm_num
      unfold pyRound
      rw [hfl]
      norm_num
    rw [this]
    norm_num

/-- Claim C1 as amended (`round(prev_interval·ef)` corrected to
`round(max(1, prev_interval)·ef)`, the clamp the code applies): the state
stored by `reviewTrainingCard` satisfies the SM-2 rules of the claim, under
the side-conditions that the wall clock agrees with `now` and the computed
timestamps fit in seconds (so the millisecond/overdue normalizations are
inactive). -/
theorem C1_amended_review (db : DB) (card : CardSrsView) (cardId grade : ℤ)
    (now : PyDateTime) (wallTs : ℤ)
    (hcard : getTrainingCardSrsView db cardId = some card)
    (hsusp : orInt card.suspended ≠ 1)
    (hg0 : 0 ≤ grade) (hg5 : grade ≤ 5)
    (hwall : wallTs = now.ts)
    (hfit : (computeSrs card grade now.ts).due_at ≤ 10000000000) :
    ∃ s db2, reviewTrainingCard db cardId grade now wallTs = .ok (s, db2) ∧
      (∃ stored, getTrainingCardSrsView db2 cardId = some stored ∧
        stored.reps = some s.reps ∧ stored.lapses = some s.lapses ∧
        stored.ef = some s.ef ∧ stored.interval_days = some s.interval_days ∧
        stored.due_at = some s.due_at ∧ stored.last_review_at = some s.last_review_at ∧
        stored.correct_streak = some s.correct_streak ∧
        stored.wrong_streak = some s.wrong_streak) ∧
      s.ef = max (13/10) (orEf card.ef +
        (1/10 - ((5 - grade : ℤ) : ℚ) * (8/100 + ((5 - grade : ℤ) : ℚ) * (2/100)))) ∧
      (13/10 : ℚ) ≤ s.ef ∧
      (grade < 3 →
        s.lapses = orInt card.lapses + 1 ∧ s.reps = 0 ∧ s.interval_days = 1 ∧
        s.wrong_streak = orInt card.wrong_streak + 1 ∧ s.correct_streak = 0 ∧
        s.due_at = now.ts + 86400) ∧
      (3 ≤ grade →
        s.reps = orInt card.reps + 1 ∧
        s.interval_days =
          specIntervalClaim s.reps (max 1 (orInt card.interval_days)) s.ef ∧
        s.correct_streak = orInt card.correct_streak + 1 ∧ s.wrong_streak = 0 ∧
        s.due_at - s.last_review_at = s.interval_days * 86400) := by
  obtain ⟨hlra, hint1, hdue⟩ := computeSrs_basic card grade now.ts
  set s0 := computeSrs card grade now.ts with hs0
  have hnorm : normalizeSrsForStore wallTs s0 = s0 := by
    have hd := hfit
    rw [hdue] at hd
    refine normalizeSrsForStore_id wallTs s0 hfit ?_ ?_
    · rw [hlra]
      omega
    · rw [hdue, hwall]
      omega
  have hex : ∃ c0 ∈ db.trainingCards, c0.id = cardId := by
    unfold getTrainingCardSrsView at hcard
    rcases h : db.trainingCards.find? (fun c => c.id = cardId) with _ | c0
    · rw [h] at hcard; cases hcard
    · refine ⟨c0, List.mem_of_find?_eq_some h, ?_⟩
      have := List.find?_some h
      simpa using this
  have hrun : reviewTrainingCard db cardId grade now wallTs =
      .ok (s0, updateTrainingCardSrsConn wallTs
        (insertTrainingReviewConn db cardId now.ts grade now.day) cardId s0) := by
    unfold reviewTrainingCard
    rw [if_neg (by simp only [Bool.or_eq_true, decide_eq_true_eq]; omega), hcard]
    dsimp only
    rw [if_neg hsusp]
    rfl
  refine ⟨s0, _, hrun, ?_, ?_, ?_, ?_, ?_⟩
  · obtain ⟨stored, hst, h1, h2, h3, h4, h5, h6, h7, h8⟩ :=
      view_after_update wallTs (insertTrainingReviewConn db cardId now.ts grade now.day)
        cardId s0 hex
    rw [hnorm] at h1 h2 h3 h4 h5 h6 h7 h8
    exact ⟨stored, hst, h1, h2, h3, h4, h5, h6, h7, h8⟩
  · rw [hs0]
    unfold computeSrs updateEf
    dsimp only
    split <;> rfl
  · rw [hs0]
    unfold computeSrs
    dsimp only
    split <;> exact le_max_left _ _
  · intro hlt
    rw [hs0]
    unfold computeSrs
    dsimp only
    rw [if_pos hlt]
    exact ⟨rfl, rfl, rfl, rfl, rfl, rfl⟩
  · intro hge
    have hnot : ¬ grade < 3 := by omega
    rw [hs0]
    unfold computeSrs
    dsimp only
    rw [if_neg hnot]
    refine ⟨rfl, rfl, rfl, rfl, ?_⟩
    dsimp only
    ring

/-- Witness for claim C1 at a concrete input. -/
theorem C1_witness :
    ∃ s db2, reviewTrainingCard c1Db 1 5 ⟨1000, 0⟩ 1000 = .ok (s, db2) ∧
      (∃ stored, getTrainingCardSrsView db2 1 = some stored ∧
        stored.reps = some s.reps ∧ stored.lapses = some s.lapses ∧
        stored.ef = some s.ef ∧ stored.interval_days = some s.interval_days ∧
        stored.due_at = some s.due_at ∧ stored.last_review_at = some s.last_review_at ∧
        stored.correct_streak = some s.correct_streak ∧
        stored.wrong_streak = some s.wrong_streak) ∧
      s.ef = max (13/10) (orEf c1View.ef +
        (1/10 - ((5 - (5 : ℤ) : ℤ) : ℚ) * (8/100 + ((5 - (5 : ℤ) : ℤ) : ℚ) * (2/100)))) ∧
      (13/10 : ℚ) ≤ s.ef ∧
      ((5 : ℤ) < 3 →
        s.lapses = orInt c1View.lapses + 1 ∧ s.reps = 0 ∧ s.interval_days = 1 ∧
        s.wrong_streak = orInt c1View.wrong_streak + 1 ∧ s.correct_streak = 0 ∧
        s.due_at = (1000 : ℤ) + 86400) ∧
      ((3 : ℤ) ≤ 5 →
        s.reps = orInt c1View.reps + 1 ∧
        s.interval_days =
          specIntervalClaim s.reps (max 1 (orInt c1View.interval_days)) s.ef ∧
        s.correct_streak = orInt c1View.correct_streak + 1 ∧ s.wrong_streak = 0 ∧
        s.due_at - s.last_review_at = s.interval_days * 86400) :=
  C1_amended_review c1Db c1View 1 5 ⟨1000, 0⟩ 1000 rfl (by decide) (by norm_num)
    (by norm_num) rfl (by rw [c1_computeSrs]; norm_num [c1Srs])

/-! ## Claim C4 -/

/-- Claim C4: when the provider call fails (and it is only made after the
relevant cache lookup missed), `translate_word` returns a `WordResult` with
empty `text`, the provider's message in `error`, `from_cache = false`,
`count = 0` and `cache_source = none`, and the entire database state is
unchanged — no base-cache, context-cache or variant row is written. -/
theorem C4_provider_error (deps : TranslationDeps) (db : DB)
    (word targetLang srcHint : String) (nowS : ℤ) (context tr detected msg : String)
    (hmiss :
      (pyCollapse context ≠ "" ∧
        getCtxEntry db word (some (if pyUpper srcHint = "" then "EN" else pyUpper srcHint))
          (pyUpper (if targetLang = "" then "RU" else targetLang))
          (deps.ctxHash (pyCollapse context)) = none ∧
        deps.deeplCall word (pyUpper (if targetLang = "" then "RU" else targetLang))
          (pyCollapse context) = (tr, detected, some msg))
      ∨ (pyCollapse context = "" ∧
        getBaseEntryAnySrc db word (pyUpper (if targetLang = "" then "RU" else targetLang))
          (some srcHint) = none ∧
        deps.deeplCall word (pyUpper (if targetLang = "" then "RU" else targetLang)) "" =
          (tr, detected, some msg))) :
    (translateWord deps db word targetLang srcHint nowS context).1.text = "" ∧
    (translateWord deps db word targetLang srcHint nowS context).1.error = some msg ∧
    (translateWord deps db word targetLang srcHint nowS context).1.from_cache = false ∧
    (translateWord deps db word targetLang srcHint nowS context).1.count = 0 ∧
    (translateWord deps db word targetLang srcHint nowS context).1.cache_source = none ∧
    (translateWord deps db word targetLang srcHint nowS context).2 = db := by
  unfold translateWord
  rcases hmiss with ⟨hctx, hget, hcall⟩ | ⟨hctx, hget, hcall⟩
  · simp only [hctx, ne_eq, not_false_eq_true, if_true, hget, hcall]
    exact ⟨trivial, trivial, trivial, trivial, trivial, trivial⟩
  · simp only [hctx, ne_eq, not_true_eq_false, if_false, hget, hcall]
    exact ⟨trivial, trivial, trivial, trivial, trivial, trivial⟩

/-- Dependencies whose provider always fails. -/
def depsErr : TranslationDeps :=
  { deeplCall := fun _ _ _ => ("", "", some "boom")
    normalizeSrcLang := normalizeSrcLang
    ctxHash := fun s => s
    ensureMw := fun _ _ _ mw => (none, mw) }

/-- Witness for claim C4 at a concrete input: a provider that always fails
on an empty cache. -/
theorem C4_witness :
    (translateWord depsErr dbEmpty "apple" "ru" "EN" 0 "").1.text = "" ∧
    (translateWord depsErr dbEmpty "apple" "ru" "EN" 0 "").1.error = some "boom" ∧
    (translateWord depsErr dbEmpty "apple" "ru" "EN" 0 "").1.from_cache = false ∧
    (translateWord depsErr dbEmpty "apple" "ru" "EN" 0 "").1.count = 0 ∧
    (translateWord depsErr dbEmpty "apple" "ru" "EN" 0 "").1.cache_source = none ∧
    (translateWord depsErr dbEmpty "apple" "ru" "EN" 0 "").2 = dbEmpty :=
  C4_provider_error depsErr dbEmpty "apple" "ru" "EN" 0 "" "" "" "boom"
    (Or.inr ⟨rfl, rfl, rfl⟩)

/-! ## Claim C5 -/

lemma ensureCard_entries (db : DB) (e t cid : ℤ) (db2 : DB)
    (h : ensureCardForEntryConn db e t = .ok (cid, db2)) : db2.entries = db.entries := by
  unfold ensureCardForEntryConn at h
  split at h
  · cases h
    rfl
  · split at h
    · cases h
    · cases h
      rfl

lemma pickFallback_entries (cfg : TrainerConfig) (db : DB) (srcFilter : Option String)
    (now : PyDateTime) (nowS : ℤ) (parseDt : ℤ → PyDateTime)
    (excludeCardIds : Option (List ℤ)) (chooseRecent : Bool) (draws : List ℕ)
    (item : Item) (db2 : DB)
    (h : pickFallback cfg db srcFilter now nowS parseDt excludeCardIds chooseRecent draws =
      .ok (item, db2)) : db2.entries = db.entries := by
  unfold pickFallback at h
  rcases hsel : fbSelect cfg db srcFilter now parseDt excludeCardIds chooseRecent draws with
    _ | _ | ⟨e, total, mastered, pct⟩ <;> rw [hsel] at h <;> dsimp only at h
  · cases h
    rfl
  · cases h
  · rcases hens : ensureCardForEntryConn db
        (if e.entry_id ≠ 0 then e.entry_id else e.id) now.ts with e2 | ⟨cardId, db3⟩ <;>
      rw [hens] at h <;> dsimp only at h
    · cases h
    · cases h
      exact ensureCard_entries _ _ _ _ _ hens

lemma newPoolAttempt_entries (db : DB) (srcLangs : List String) (nowTs : ℤ)
    (now : PyDateTime) (rand : Rand) (item : Item) (db2 : DB) (ds : List ℕ)
    (h : newPoolAttempt db srcLangs nowTs now rand = (some (.ok (item, db2)), ds)) :
    db2.entries = db.entries := by
  unfold newPoolAttempt at h
  by_cases hpn : rand.pickNew
  · rw [if_pos hpn] at h
    rcases ht : takeDraw rand.draws with ⟨d1, ds1⟩
    rw [ht] at h
    dsimp only at h
    rcases hnew : listNewEntriesConn d1 db srcLangs 1 with _ | ⟨r, rest⟩ <;>
      rw [hnew] at h <;> dsimp only at h
    · cases h
    · rcases hens : ensureCardForEntryConn db r.entry_id nowTs with e | ⟨cardId, db3⟩ <;>
        rw [hens] at h <;> dsimp only at h
      · simp at h
      · simp only [Prod.mk.injEq, Option.some.injEq, Except.ok.injEq] at h
        rw [← h.1.2]
        exact ensureCard_entries _ _ _ _ _ hens
  · rw [if_neg hpn] at h
    cases h

lemma pickTrainingWord_entries (cfg : TrainerConfig) (db : DB)
    (srcFilter : Option String) (now : PyDateTime) (nowS : ℤ)
    (parseDt : ℤ → PyDateTime) (excludeCardIds : Option (List ℤ)) (rand : Rand)
    (item : Item) (db2 : DB)
    (h : pickTrainingWord cfg db srcFilter now nowS parseDt excludeCardIds rand =
      .ok (item, db2)) : db2.entries = db.entries := by
  unfold pickTrainingWord at h
  dsimp only at h
  rcases hdue : listDueEntriesConn db (srsSrcLangs srcFilter) now.ts 1 excludeCardIds with
    _ | ⟨r, rest⟩
  · rw [hdue] at h
    dsimp only at h
    rcases hna : newPoolAttempt db (srsSrcLangs srcFilter) now.ts now rand with ⟨ores, ds⟩
    rw [hna] at h
    rcases ores with _ | res
    · dsimp only at h
      rcases hh : listHardEntriesConn db (srsSrcLangs srcFilter) now.ts
          (max 1 (5 : ℤ)).toNat excludeCardIds with _ | ⟨h0, hr⟩ <;>
        rw [hh] at h <;> dsimp only at h
      · exact pickFallback_entries _ _ _ _ _ _ _ _ _ _ _ h
      · cases h
        rfl
    · dsimp only at h
      rw [h] at hna
      exact newPoolAttempt_entries _ _ _ _ _ _ _ _ hna
  · rw [hdue] at h
    dsimp only at h
    cases h
    rfl

/-- Claim C5 against the code: `pick_training_word` (all modes, the fallback
included) leaves the `entries` table untouched, and `review_training_card`
leaves it untouched as well — the entry-bump block is dead code, because the
card dictionary it inspects comes from `_get_training_card_conn`, whose
SELECT omits `entry_id`, so `card.get("entry_id") or 0` is always 0. -/
theorem C5_code_divergence :
    (∀ (db : DB) (cardId grade : ℤ) (now : PyDateTime) (wallTs : ℤ) (s : Srs) (db2 : DB),
      reviewTrainingCard db cardId grade now wallTs = .ok (s, db2) →
        db2.entries = db.entries) ∧
    (∀ (cfg : TrainerConfig) (db : DB) (srcFilter : Option String) (now : PyDateTime)
      (nowS : ℤ) (parseDt : ℤ → PyDateTime) (excludeCardIds : Option (List ℤ))
      (rand : Rand) (item : Item) (db2 : DB),
      pickTrainingWord cfg db srcFilter now nowS parseDt excludeCardIds rand =
        .ok (item, db2) → db2.entries = db.entries) := by
  constructor
  · intro db cardId grade now wallTs s db2 h
    unfold reviewTrainingCard at h
    split at h
    · cases h
    · split at h
      · cases h
      · split at h
        · cases h
        · dsimp only at h
          split at h
          · rename_i hc
            exact absurd rfl hc
          · cases h
            rfl
  · intro cfg db srcFilter now nowS parseDt excludeCardIds rand item db2 h
    exact pickTrainingWord_entries _ _ _ _ _ _ _ _ _ _ h

/-- The database of the C5 failing input: entry 7 (count 0, never used)
owned by training card 1. -/
def c5Db : DB :=
  { entries := [{ id := 7, term := "hund", translation := "dog", src_lang := "DA",
                  dst_lang := "RU", detected_raw := none, created_at := 0,
                  last_used := none, count := 0, hard := 0, ignore := false }],
    entriesCtx := [], entryTranslations := [], mwDefs := [],
    trainingCards := [{ c1Card with entry_id := some 7 }], trainingReviews := [],
    nextEntryId := 8, nextCtxId := 1, nextCardId := 2 }

lemma c5_review_run : reviewTrainingCard c5Db 1 5 ⟨1000, 0⟩ 1000 =
    .ok (c1Srs, updateTrainingCardSrsConn 1000
      (insertTrainingReviewConn c5Db 1 1000 5 0) 1 c1Srs) := by
  have hview : getTrainingCardSrsView c5Db 1 = some c1View := rfl
  unfold reviewTrainingCard
  rw [hview]
  dsimp only
  rw [if_neg (by decide : ¬ ((5 : ℤ) < 0 || 5 < (5 : ℤ)) = true),
      if_neg (by decide : ¬ orInt c1View.suspended = 1), c1_computeSrs]
  rfl

/-- Witness for claim C5: grading card 1 (owned by entry 7) leaves entry 7's
`count` and `last_used` untouched. -/
theorem C5_witness :
    ∃ s db2, reviewTrainingCard c5Db 1 5 ⟨1000, 0⟩ 1000 = .ok (s, db2) ∧
      db2.entries = c5Db.entries :=
  ⟨c1Srs, _, c5_review_run,
    C5_code_divergence.1 c5Db 1 5 ⟨1000, 0⟩ 1000 c1Srs _ c5_review_run⟩

/-! ## Claims C6 and C7: shared lemmas -/

lemma finalizeItem_mode (db : DB) (now : PyDateTime) (item : Item) :
    (finalizeItem db now item).mode = item.mode := by
  unfold finalizeItem
  dsimp only
  split <;> split <;> rfl

lemma finalizeItem_entry_id (db : DB) (now : PyDateTime) (item : Item) :
    (finalizeItem db now item).entry_id = item.entry_id := by
  unfold finalizeItem
  dsimp only
  split <;> split <;> rfl

/-- When the due pool is empty, the new-pool coin is down and the hard query
returns nothing, `pick_training_word` answers through the fallback selection
with `mode = "fallback"`. -/
lemma pickTrainingWord_mode_fallback (cfg : TrainerConfig) (db : DB)
    (srcFilter : Option String) (now : PyDateTime) (nowS : ℤ)
    (parseDt : ℤ → PyDateTime) (excludeCardIds : Option (List ℤ)) (rand : Rand)
    (e : FbEntry) (total mastered : ℕ) (pct cid : ℤ) (db3 : DB)
    (hdue : listDueEntriesConn db (srsSrcLangs srcFilter) now.ts 1 excludeCardIds = [])
    (hpn : rand.pickNew = false)
    (hh : listHardEntriesConn db (srsSrcLangs srcFilter) now.ts
      ((max 1 (5 : ℤ)).toNat) excludeCardIds = [])
    (hsel : fbSelect cfg db srcFilter now parseDt excludeCardIds rand.chooseRecent
      rand.draws = .chosen e total mastered pct)
    (hens : ensureCardForEntryConn db (if e.entry_id ≠ 0 then e.entry_id else e.id)
      now.ts = .ok (cid, db3)) :
    ∃ item, pickTrainingWord cfg db srcFilter now nowS parseDt excludeCardIds rand =
        .ok (item, db3) ∧ item.mode = some "fallback" ∧
      item.entry_id = some (if e.entry_id ≠ 0 then e.entry_id else e.id) := by
  unfold pickTrainingWord
  dsimp only
  rw [hdue]
  dsimp only
  have hna : newPoolAttempt db (srsSrcLangs srcFilter) now.ts now rand =
      (none, rand.draws) := by
    unfold newPoolAttempt
    rw [hpn]
    rfl
  rw [hna]
  dsimp only
  rw [hh]
  dsimp only
  unfold pickFallback
  rw [hsel]
  dsimp only
  rw [hens]
  dsimp only
  refine ⟨_, rfl, ?_, ?_⟩
  · rw [finalizeItem_mode]
  · rw [finalizeItem_entry_id]

/-- Every item `pick_training_word` hands back through the fallback stage
either is the `mode = "fallback"` item or the no-entries error item. -/
lemma pickFallback_mode (cfg : TrainerConfig) (db : DB) (srcFilter : Option String)
    (now : PyDateTime) (nowS : ℤ) (parseDt : ℤ → PyDateTime)
    (excludeCardIds : Option (List ℤ)) (chooseRecent : Bool) (draws : List ℕ)
    (item : Item) (db2 : DB)
    (h : pickFallback cfg db srcFilter now nowS parseDt excludeCardIds chooseRecent draws =
      .ok (item, db2)) : item.mode = some "fallback" ∨ item.mode = none := by
  unfold pickFallback at h
  rcases hsel : fbSelect cfg db srcFilter now parseDt excludeCardIds chooseRecent draws with
    _ | _ | ⟨e, total, mastered, pct⟩ <;> rw [hsel] at h <;> dsimp only at h
  · cases h
    right
    rfl
  · cases h
  · rcases hens : ensureCardForEntryConn db
        (if e.entry_id ≠ 0 then e.entry_id else e.id) now.ts with e2 | ⟨cardId, db3⟩ <;>
      rw [hens] at h <;> dsimp only at h
    · cases h
    · cases h
      left
      rw [finalizeItem_mode]

lemma joinCards_snd_mem (db : DB) (ce : Card × Entry) (h : ce ∈ joinCards db) :
    ce.2 ∈ db.entries := by
  unfold joinCards at h
  rw [List.mem_filterMap] at h
  obtain ⟨c, _, hmap⟩ := h
  rcases hc : c.entry_id with _ | eid
  · rw [hc] at hmap
    cases hmap
  · rw [hc] at hmap
    dsimp only at hmap
    rcases hf : db.entries.find? (fun e => e.id = eid) with _ | e0
    · rw [hf] at hmap
      cases hmap
    · rw [hf] at hmap
      cases hmap
      exact List.mem_of_find?_eq_some hf

lemma listDue_empty_of_DA (db : DB) (nowTs : ℤ) (limit : ℕ)
    (ex : Option (List ℤ)) (hDA : ∀ e ∈ db.entries, e.src_lang = "DA") :
    listDueEntriesConn db ["EN"] nowTs limit ex = [] := by
  unfold listDueEntriesConn
  rw [if_neg (by simp)]
  have hfil : (joinCards db).filter
      (dueHardFilter ["EN"] nowTs (listTruthy ex)) = [] := by
    rw [List.filter_eq_nil_iff]
    intro ce hce
    have hsrc := hDA ce.2 (joinCards_snd_mem db ce hce)
    unfold dueHardFilter
    simp [hsrc]
  dsimp only
  rw [hfil]
  simp [sortBy, List.insertionSort]

lemma listHard_empty_of_DA (db : DB) (nowTs : ℤ) (limit : ℕ)
    (ex : Option (List ℤ)) (hDA : ∀ e ∈ db.entries, e.src_lang = "DA") :
    listHardEntriesConn db ["EN"] nowTs limit ex = [] := by
  unfold listHardEntriesConn
  rw [if_neg (by simp)]
  have hfil : (joinCards db).filter
      (dueHardFilter ["EN"] nowTs (listTruthy ex)) = [] := by
    rw [List.filter_eq_nil_iff]
    intro ce hce
    have hsrc := hDA ce.2 (joinCards_snd_mem db ce hce)
    unfold dueHardFilter
    simp [hsrc]
  dsimp only
  rw [hfil]
  simp [sortBy, List.insertionSort]

lemma listNew_empty_of_DA (db : DB) (d : ℕ) (limit : ℕ)
    (hDA : ∀ e ∈ db.entries, e.src_lang = "DA") :
    listNewEntriesConn d db ["EN"] limit = [] := by
  unfold listNewEntriesConn
  rw [if_neg (by simp)]
  have hfil : db.entries.filter (fun e =>
      e.ignore = false && (["EN"].contains e.src_lang) &&
        !(db.trainingCards.any fun c => c.entry_id = some e.id)) = [] := by
    rw [List.filter_eq_nil_iff]
    intro e he
    have hsrc := hDA e he
    simp [hsrc]
  dsimp only
  rw [hfil]
  simp [List.rotateLeft]

lemma newPoolAttempt_none_of_DA (db : DB) (nowTs : ℤ) (now : PyDateTime)
    (rand : Rand) (hDA : ∀ e ∈ db.entries, e.src_lang = "DA") :
    ∃ ds, newPoolAttempt db ["EN"] nowTs now rand = (none, ds) := by
  unfold newPoolAttempt
  by_cases hpn : rand.pickNew
  · rw [if_pos hpn]
    rcases ht : takeDraw rand.draws with ⟨d1, ds1⟩
    dsimp only
    rw [listNew_empty_of_DA db d1 1 hDA]
    exact ⟨ds1, rfl⟩
  · rw [if_neg hpn]
    exact ⟨rand.draws, rfl⟩

/-! ## Claim C6: the hard pool -/

/-- A configuration with the two mandatory fields; `hard_random_top_n`
does not exist on `TrainerConfig`, so the hard limit is the literal 5. -/
def cfgTr : TrainerConfig := { recent_days := 7, mastery_count := 7 }

/-- An entry whose card is non-suspended but due only in the future. -/
def c6Entry : Entry :=
  { id := 1, term := "apple", translation := "aeble", src_lang := "EN",
    dst_lang := "DA", detected_raw := none, created_at := 0, last_used := none,
    count := 0, hard := 0, ignore := false }

/-- The card of `c6Entry`: not suspended, `due_at` 1000 seconds in the
future. -/
def c6Card : Card :=
  { id := 1, entry_id := some 1, src_lang := some "EN", reps := some 0,
    lapses := some 0, ef := some (5/2), interval_days := some 0,
    due_at := some 2000, last_review_at := none, last_grade := none,
    correct_streak := some 0, wrong_streak := some 0, suspended := some 0 }

def c6Db : DB :=
  { entries := [c6Entry], entriesCtx := [], entryTranslations := [], mwDefs := [],
    trainingCards := [c6Card], trainingReviews := [], nextEntryId := 2,
    nextCtxId := 1, nextCardId := 2 }

/-- Randomness oracle with the new-pool coin down. -/
def randOff : Rand := { pickNew := false, chooseRecent := false, draws := [] }

/-- **C6.** The claim says: due pool empty, new pool not taken, and a
non-suspended, non-excluded card of the language set exists ⇒ the pick
returns `mode = "srs_hard"` from the hard ranking.  The code diverges twice:
the service calls `_list_hard_entries_conn(..., allow_future=True)` with a
keyword the repository method does not accept (a `TypeError` at runtime), and
the method's own WHERE clause keeps only cards with `due_at ≤ now_ts`.  On a
database holding exactly one non-suspended card, due in the future, the hard
query is empty and the pick falls through to `mode = "fallback"`. -/
theorem C6_hard_pool_divergence :
    (∃ c ∈ c6Db.trainingCards, c.suspended = some 0 ∧ ∃ e ∈ c6Db.entries,
        c.entry_id = some e.id ∧ e.src_lang ∈ srsSrcLangs (some "EN") ∧
        e.ignore = false) ∧
    listDueEntriesConn c6Db (srsSrcLangs (some "EN")) 1000 1 none = [] ∧
    listHardEntriesConn c6Db (srsSrcLangs (some "EN")) 1000
      ((max 1 (5 : ℤ)).toNat) none = [] ∧
    ∃ item db2,
      pickTrainingWord cfgTr c6Db (some "EN") ⟨1000, 20000⟩ 0 (fun t => ⟨t, 0⟩)
        none randOff = .ok (item, db2) ∧ item.mode = some "fallback" := by
  refine ⟨by decide, rfl, rfl, ?_⟩
  obtain ⟨item, hpick, hmode, _⟩ :=
    pickTrainingWord_mode_fallback cfgTr c6Db (some "EN") ⟨1000, 20000⟩ 0
      (fun t => ⟨t, 0⟩) none randOff _ _ _ _ _ _ rfl rfl rfl rfl rfl
  exact ⟨item, _, hpick, hmode⟩

/-! ## Claim C7: the language sets of the pools -/

/-- A Danish entry with a past-due, non-suspended card. -/
def c7Entry : Entry :=
  { id := 1, term := "hund", translation := "dog", src_lang := "DA",
    dst_lang := "EN", detected_raw := none, created_at := 0, last_used := none,
    count := 0, hard := 0, ignore := false }

def c7Card : Card := { c6Card with src_lang := some "DA", due_at := some 500 }

def c7Db : DB := { c6Db with entries := [c7Entry], trainingCards := [c7Card] }

/-- Every successful return of the raising model `pickTrainingWordReal` is
a return of the continued model `pickTrainingWord`: the continued model
over-approximates the program's successful executions, so frame theorems
proved over it cover every run the program completes. -/
lemma pickTrainingWordReal_ok_imp (cfg : TrainerConfig) (db : DB)
    (srcFilter : Option String) (now : PyDateTime) (nowS : ℤ)
    (parseDt : ℤ → PyDateTime) (excludeCardIds : Option (List ℤ)) (rand : Rand)
    (x : Item × DB)
    (h : pickTrainingWordReal cfg db srcFilter now nowS parseDt excludeCardIds rand =
      .ok x) :
    pickTrainingWord cfg db srcFilter now nowS parseDt excludeCardIds rand = .ok x := by
  unfold pickTrainingWordReal at h
  unfold pickTrainingWord
  dsimp only at h ⊢
  rcases hdue : listDueEntriesConn db (srsSrcLangs srcFilter) now.ts 1 excludeCardIds
    with _ | ⟨r, rest⟩
  · rw [hdue] at h
    dsimp only at h ⊢
    rcases hna : newPoolAttempt db (srsSrcLangs srcFilter) now.ts now rand with ⟨ores, ds⟩
    rw [hna] at h
    rcases ores with _ | res
    · dsimp only at h
      cases h
    · dsimp only at h ⊢
      exact h
  · rw [hdue] at h
    dsimp only at h ⊢
    exact h

/-- **C7.** The claim says that without `src_filter` every candidate pool is
filtered with `["EN", "DA"]`.  In the code, line 89 of the service builds
`[src_filter] if src_filter else ["EN"]` for the SRS pools; only the dead
legacy fallback widens to `["EN", "DA"]`.  On a database whose entries are
all Danish, the due and new pools over `["EN"]` are therefore always empty,
and the call then raises `TypeError` at the `allow_future=True` hard-pool
invocation — the pick never serves any pool, instead of returning the
Danish due card the claimed set would find. -/
theorem C7_srs_lang_divergence (cfg : TrainerConfig) (db : DB) (now : PyDateTime)
    (nowS : ℤ) (parseDt : ℤ → PyDateTime) (excludeCardIds : Option (List ℤ))
    (rand : Rand) (hDA : ∀ e ∈ db.entries, e.src_lang = "DA") :
    srsSrcLangs none = ["EN"] ∧
    pickTrainingWordReal cfg db none now nowS parseDt excludeCardIds rand =
      .error "TypeError: _list_hard_entries_conn() got an unexpected keyword argument allow_future" := by
  refine ⟨rfl, ?_⟩
  unfold pickTrainingWordReal
  dsimp only
  rw [show srsSrcLangs none = ["EN"] from rfl]
  rw [listDue_empty_of_DA db now.ts 1 excludeCardIds hDA]
  dsimp only
  obtain ⟨ds, hna⟩ := newPoolAttempt_none_of_DA db now.ts now rand hDA
  rw [hna]

/-- Witness for C7: the all-Danish single-entry database, on which the due
query over the claimed set `["EN", "DA"]` is non-empty. -/
theorem C7_witness :
    (∀ e ∈ c7Db.entries, e.src_lang = "DA") ∧
    listDueEntriesConn c7Db ["EN", "DA"] 1000 1 none ≠ [] ∧
    (srsSrcLangs none = ["EN"] ∧
      pickTrainingWordReal cfgTr c7Db none ⟨1000, 20000⟩ 0 (fun t => ⟨t, 0⟩)
        none randOff =
      .error "TypeError: _list_hard_entries_conn() got an unexpected keyword argument allow_future") :=
  ⟨by decide, by decide,
    C7_srs_lang_divergence cfgTr c7Db ⟨1000, 20000⟩ 0 (fun t => ⟨t, 0⟩) none randOff
      (by decide)⟩

/-! ## Claim C8: progress and streak -/

lemma edLoop_mem (as : List ℤ) : ∀ (bs : List ℤ) (x : ℤ),
    x ∈ List.eraseDups.loop as bs ↔ x ∈ as ∨ x ∈ bs := by
  induction as with
  | nil =>
    intro bs x
    simp [List.eraseDups.loop]
  | cons a as ih =>
    intro bs x
    simp only [List.eraseDups.loop]
    cases he : bs.elem a
    · dsimp only
      rw [ih]
      simp only [List.mem_cons]
      tauto
    · dsimp only
      rw [ih]
      have ha : a ∈ bs := List.elem_iff.mp he
      simp only [List.mem_cons]
      constructor
      · tauto
      · rintro (h | h)
        · rcases h with rfl | h
          · exact Or.inr ha
          · exact Or.inl h
        · exact Or.inr h

lemma edLoop_nodup (as : List ℤ) : ∀ bs : List ℤ, bs.Nodup →
    (List.eraseDups.loop as bs).Nodup := by
  induction as with
  | nil =>
    intro bs h
    simpa [List.eraseDups.loop] using h
  | cons a as ih =>
    intro bs h
    simp only [List.eraseDups.loop]
    cases he : bs.elem a
    · dsimp only
      apply ih
      rw [List.nodup_cons]
      refine ⟨?_, h⟩
      intro hm
      rw [List.elem_iff.mpr hm] at he
      cases he
    · dsimp only
      exact ih bs h

lemma mem_eraseDups_int (l : List ℤ) (x : ℤ) : x ∈ l.eraseDups ↔ x ∈ l := by
  unfold List.eraseDups
  rw [edLoop_mem]
  simp

lemma nodup_eraseDups_int (l : List ℤ) : l.eraseDups.Nodup := by
  unfold List.eraseDups
  exact edLoop_nodup l [] List.nodup_nil

/-- Every day visited by the streak walk is in the active list. -/
lemma streakWalk_mem : ∀ (fuel : ℕ) (l : List ℤ) (d : ℤ) (i : ℕ),
    i < streakWalk fuel l d → (d - i) ∈ l := by
  intro fuel
  induction fuel with
  | zero =>
    intro l d i hi
    simp [streakWalk] at hi
  | succ n ih =>
    intro l d i hi
    simp only [streakWalk] at hi
    by_cases hd : d ∈ l
    · rw [if_pos hd] at hi
      rcases i with _ | j
      · simpa using hd
      · have hj : j < streakWalk n (l.erase d) (d - 1) := by omega
        have hmem := ih (l.erase d) (d - 1) j hj
        have h2 : d - ((j + 1 : ℕ) : ℤ) = d - 1 - (j : ℤ) := by push_cast; ring
        rw [h2]
        exact List.mem_of_mem_erase hmem
    · rw [if_neg hd] at hi
      omega

/-- On a duplicate-free active list whose length bounds the fuel, the day
right below the walked streak is not active. -/
lemma streakWalk_stop : ∀ (fuel : ℕ) (l : List ℤ) (d : ℤ), l.Nodup →
    l.length ≤ fuel → (d - (streakWalk fuel l d : ℤ)) ∉ l := by
  intro fuel
  induction fuel with
  | zero =>
    intro l d hnd hlen
    have hl : l = [] := List.eq_nil_of_length_eq_zero (by omega)
    subst hl
    simp
  | succ n ih =>
    intro l d hnd hlen
    by_cases hd : d ∈ l
    · have hlen2 : (l.erase d).length ≤ n := by
        rw [List.length_erase_of_mem hd]
        have hpos := List.length_pos_of_mem hd
        omega
      have ih2 := ih (l.erase d) (d - 1) (hnd.erase d) hlen2
      simp only [streakWalk, if_pos hd]
      intro hmem
      have hne : d - ((1 + streakWalk n (l.erase d) (d - 1) : ℕ) : ℤ) ≠ d := by
        have : (0 : ℤ) < ((1 + streakWalk n (l.erase d) (d - 1) : ℕ) : ℤ) := by
          push_cast
          omega
        omega
      have hmem2 : d - ((1 + streakWalk n (l.erase d) (d - 1) : ℕ) : ℤ) ∈ l.erase d :=
        (List.mem_erase_of_ne hne).mpr hmem
      have heq : d - ((1 + streakWalk n (l.erase d) (d - 1) : ℕ) : ℤ) =
          (d - 1) - (streakWalk n (l.erase d) (d - 1) : ℤ) := by
        push_cast
        ring
      rw [heq] at hmem2
      exact ih2 hmem2
    · simp only [streakWalk, if_neg hd]
      simpa using hd

/-- With at most 400 distinct review days, the active-day list of
`get_progress` is duplicate-free and holds exactly the days with a review. -/
lemma active_days_spec (db : DB)
    (h400 : ((db.trainingReviews.map fun r => r.day).eraseDups).length ≤ 400) :
    (listActiveDaysDescConn db 400).Nodup ∧
    ∀ x : ℤ, x ∈ listActiveDaysDescConn db 400 ↔ hasReviewOn db.trainingReviews x := by
  unfold listActiveDaysDescConn
  have hperm := sortBy_perm (fun a b : ℤ => decide (b ≤ a))
    ((db.trainingReviews.map fun r => r.day).eraseDups)
  have hlen : (sortBy (fun a b : ℤ => decide (b ≤ a))
      ((db.trainingReviews.map fun r => r.day).eraseDups)).length ≤ 400 := by
    rw [sortBy_length]
    exact h400
  rw [List.take_of_length_le hlen]
  constructor
  · exact hperm.nodup_iff.mpr (nodup_eraseDups_int _)
  · intro x
    rw [hperm.mem_iff, mem_eraseDups_int, List.mem_map]
    unfold hasReviewOn
    constructor
    · rintro ⟨r, hr, hday⟩
      exact ⟨r, hr, hday⟩
    · rintro ⟨r, hr, hday⟩
      exact ⟨r, hr, hday⟩

/-- **C8.** `get_progress(now)` returns `today_done` equal to the number of
review rows on the current day, and — provided the history has at most 400
distinct active days, so the `LIMIT 400` of `_list_active_days_desc_conn`
truncates nothing — `streak_days` is the largest `k` such that each of the
`k` consecutive days `d, d-1, …, d-k+1` has at least one review. -/
theorem C8_amended_progress (db : DB) (now : PyDateTime)
    (h400 : ((db.trainingReviews.map fun r => r.day).eraseDups).length ≤ 400) :
    (getProgress db now).today_done =
      db.trainingReviews.countP (fun r => decide (r.day = now.day)) ∧
    IsLargestStreak db.trainingReviews now.day (getProgress db now).streak_days := by
  obtain ⟨hnd, hmem⟩ := active_days_spec db h400
  constructor
  · show (db.trainingReviews.filter fun r => r.day = now.day).length = _
    exact (List.countP_eq_length_filter _ _).symm
  · have hsd : (getProgress db now).streak_days =
        streakWalk (listActiveDaysDescConn db 400).length
          (listActiveDaysDescConn db 400) now.day := rfl
    rw [hsd]
    constructor
    · intro i hi
      exact (hmem _).mp (streakWalk_mem _ _ _ i hi)
    · intro hc
      exact streakWalk_stop _ _ now.day hnd le_rfl ((hmem _).mpr hc)

/-- A history with reviews on the 401 consecutive days 0, 1, …, 400. -/
def c8Db : DB :=
  { entries := [], entriesCtx := [], entryTranslations := [], mwDefs := [],
    trainingCards := [], trainingReviews := (List.range 401).map fun (i : ℕ) =>
      { card_id := 1, ts := 0, grade := 5, day := 400 - (i : ℤ) },
    nextEntryId := 1, nextCtxId := 1, nextCardId := 1 }

/-- The run of consecutive days `d, d-1, …, d-n+1`, newest first. -/
def descRun : ℤ → ℕ → List ℤ
  | _, 0 => []
  | d, n + 1 => d :: descRun (d - 1) n

lemma descRun_length : ∀ (n : ℕ) (d : ℤ), (descRun d n).length = n := by
  intro n
  induction n with
  | zero => intro d; rfl
  | succ n ih =>
    intro d
    show (descRun d (n + 1)).length = n + 1
    rw [descRun]
    rw [List.length_cons, ih]

/-- Walking the streak over a full consecutive run consumes the whole run. -/
lemma streakWalk_descRun : ∀ (n : ℕ) (d : ℤ), streakWalk n (descRun d n) d = n := by
  intro n
  induction n with
  | zero => intro d; rfl
  | succ n ih =>
    intro d
    show streakWalk (n + 1) (descRun d (n + 1)) d = n + 1
    rw [descRun, streakWalk]
    rw [if_pos (List.mem_cons_self d (descRun (d - 1) n))]
    rw [List.erase_cons_head, ih]
    omega

/-- The review roster of `c8Db` has a review on day `400 - j` exactly for
`j < 401`. -/
lemma c8_hasReview (j : ℕ) (hj : j < 401) :
    hasReviewOn c8Db.trainingReviews (400 - (j : ℤ)) := by
  refine ⟨{ card_id := 1, ts := 0, grade := 5, day := 400 - (j : ℤ) }, ?_, rfl⟩
  show _ ∈ (List.range 401).map fun (i : ℕ) =>
    ({ card_id := 1, ts := 0, grade := 5, day := 400 - (i : ℤ) } : Review)
  exact List.mem_map_of_mem _ (List.mem_range.mpr hj)

lemma c8_day_range (r : Review) (hr : r ∈ c8Db.trainingReviews) :
    0 ≤ r.day ∧ r.day ≤ 400 := by
  have hr2 : r ∈ (List.range 401).map fun (i : ℕ) =>
      ({ card_id := 1, ts := 0, grade := 5, day := 400 - (i : ℤ) } : Review) := hr
  rcases List.mem_map.mp hr2 with ⟨j, hj, rfl⟩
  rw [List.mem_range] at hj
  dsimp only
  omega

/-- The streak field of `get_progress`, exposed without evaluation. -/
lemma getProgress_streak (db : DB) (now : PyDateTime) :
    (getProgress db now).streak_days =
      streakWalk (listActiveDaysDescConn db 400).length
        (listActiveDaysDescConn db 400) now.day := rfl

set_option maxRecDepth 100000 in
set_option maxHeartbeats 2000000 in
lemma c8_days_eq : listActiveDaysDescConn c8Db 400 = descRun 400 400 := by decide

set_option maxRecDepth 100000 in
/-- **C8 counterexample.** With reviews on the 401 consecutive days 0…400,
the largest `k` of the claim is 401 (day −1 has no review), but the
`LIMIT 400` of the active-day query drops day 0, so `get_progress` walks
only 400 steps: the returned `streak_days` fails the claim's
characterization. -/
theorem C8_counterexample :
    (getProgress c8Db ⟨0, 400⟩).streak_days = 400 ∧
    IsLargestStreak c8Db.trainingReviews 400 401 ∧
    ¬ IsLargestStreak c8Db.trainingReviews 400 400 := by
  refine ⟨?_, ⟨?_, ?_⟩, ?_⟩
  · rw [getProgress_streak]
    have hday : (⟨0, 400⟩ : PyDateTime).day = 400 := rfl
    rw [hday, c8_days_eq, descRun_length]
    exact streakWalk_descRun 400 400
  · intro i hi
    exact c8_hasReview i hi
  · rintro ⟨r, hr, hday⟩
    have := c8_day_range r hr
    have hc : ((401 : ℕ) : ℤ) = 401 := rfl
    rw [hday] at this
    omega
  · intro h
    apply h.2
    have hc : (400 : ℤ) - ((400 : ℕ) : ℤ) = 400 - (400 : ℤ) := rfl
    rw [hc]
    have := c8_hasReview 400 (by omega)
    simpa using this

/-- A two-day history for the amended statement's witness. -/
def c8SmallDb : DB :=
  { entries := [], entriesCtx := [], entryTranslations := [], mwDefs := [],
    trainingCards := [], trainingReviews :=
      [{ card_id := 1, ts := 0, grade := 5, day := 5 },
       { card_id := 1, ts := 0, grade := 4, day := 4 }],
    nextEntryId := 1, nextCtxId := 1, nextCardId := 1 }

/-- Witness for C8 on the two-day history. -/
theorem C8_witness :
    ((c8SmallDb.trainingReviews.map fun r => r.day).eraseDups).length ≤ 400 ∧
    ((getProgress c8SmallDb ⟨0, 5⟩).today_done =
      c8SmallDb.trainingReviews.countP (fun r => decide (r.day = (5 : ℤ))) ∧
    IsLargestStreak c8SmallDb.trainingReviews 5
      (getProgress c8SmallDb ⟨0, 5⟩).streak_days) :=
  ⟨by decide, C8_amended_progress c8SmallDb ⟨0, 5⟩ (by decide)⟩

/-! ## Claim C2: the context-cache bound -/

/-- Well-formedness of `entries_ctx`, mirrored from the schema: distinct
`id`s (the INTEGER PRIMARY KEY), a unique index on `(term, src_lang,
dst_lang, ctx_hash)` (the `ON CONFLICT` target of `upsert_ctx_entry`), and
every id below the AUTOINCREMENT counter. -/
def CtxWellFormed (db : DB) : Prop :=
  (db.entriesCtx.map fun r => r.id).Nodup ∧
  (db.entriesCtx.map fun r => (r.term, r.src_lang, r.dst_lang, r.ctx_hash)).Nodup ∧
  ∀ r ∈ db.entriesCtx, r.id < db.nextCtxId

instance (db : DB) : Decidable (CtxWellFormed db) := by
  unfold CtxWellFormed
  infer_instance

lemma countP_and_split {α : Type} (l : List α) (p q : α → Bool) :
    l.countP p = l.countP (fun a => p a && q a) + l.countP (fun a => p a && !q a) := by
  induction l with
  | nil => simp
  | cons a l ih =>
    rw [List.countP_cons, List.countP_cons, List.countP_cons]
    cases hp : p a <;> cases hq : q a <;> simp [hp, hq, ih] <;> omega

lemma length_le_one_of_nodup_const {α : Type} (l : List α) (a : α)
    (h : l.Nodup) (hc : ∀ x ∈ l, x = a) : l.length ≤ 1 := by
  rcases l with _ | ⟨x, _ | ⟨y, t⟩⟩
  · simp
  · simp
  · have hx := hc x (by simp)
    have hy := hc y (by simp)
    subst hx
    rw [List.nodup_cons] at h
    exact absurd (by rw [hy]; exact List.mem_cons_self _ _) h.1

lemma evictLe_total_lemma : ∀ a b : CtxRow, evictLe a b = true ∨ evictLe b a = true := by
  intro a b
  unfold evictLe
  dsimp only
  by_cases h : coalesceTs a.last_used a.created_at = coalesceTs b.last_used b.created_at
  · rw [if_neg (by omega), if_neg (by omega)]
    simp only [decide_eq_true_eq]
    omega
  · rw [if_pos (by omega), if_pos (by omega)]
    simp only [decide_eq_true_eq]
    omega

lemma evictLe_trans_lemma : ∀ a b c : CtxRow, evictLe a b = true → evictLe b c = true →
    evictLe a c = true := by
  intro a b c hab hbc
  unfold evictLe at hab hbc ⊢
  dsimp only at hab hbc ⊢
  split_ifs at hab hbc ⊢ <;> simp only [decide_eq_true_eq] at * <;> omega

instance : IsTotal CtxRow (fun a b => evictLe a b = true) := ⟨evictLe_total_lemma⟩

instance : IsTrans CtxRow (fun a b => evictLe a b = true) :=
  ⟨fun a b c => evictLe_trans_lemma a b c⟩

lemma sortBy_evictLe_sorted (l : List CtxRow) :
    List.Pairwise (fun a b => evictLe a b = true) (sortBy evictLe l) :=
  List.sorted_insertionSort (fun a b => evictLe a b = true) l

/-- The per-key row predicate of the eviction query
(`WHERE term = ? AND src_lang = ? AND dst_lang = ?`). -/
def ctxKeyedB (term src dst : String) (r : CtxRow) : Bool :=
  r.term = term && r.src_lang = src && r.dst_lang = dst

/-- The victim-candidate predicate (same key, different `ctx_hash`). -/
def ctxCandB (term src dst ctxHash : String) (r : CtxRow) : Bool :=
  ctxKeyedB term src dst r && r.ctx_hash ≠ ctxHash

/-- The eviction budget `CASE WHEN COUNT(*) > 3 THEN COUNT(*) - 3 ELSE 0 END`. -/
def ctxEvictK (l : List CtxRow) (term src dst : String) : ℕ :=
  let n := (l.filter (ctxKeyedB term src dst)).length
  if n > 3 then n - 3 else 0

/-- The rows selected for deletion: the first `ctxEvictK` candidates in
`COALESCE(last_used, created_at) ASC, id ASC` order. -/
def ctxVictims (l : List CtxRow) (term src dst ctxHash : String) : List CtxRow :=
  (sortBy evictLe (l.filter (ctxCandB term src dst ctxHash))).take
    (ctxEvictK l term src dst)

lemma evictCtxStep_eq (db : DB) (term src dst ctxHash : String) :
    evictCtxStep db term src dst ctxHash =
      { db with entriesCtx := db.entriesCtx.filter fun r =>
          !(((ctxVictims db.entriesCtx term src dst ctxHash).map fun v => v.id).contains
            r.id) } := by
  unfold evictCtxStep ctxVictims ctxEvictK ctxCandB ctxKeyedB
  rfl

lemma ctxVictims_mem_cand (l : List CtxRow) (term src dst ctxHash : String)
    (v : CtxRow) (hv : v ∈ ctxVictims l term src dst ctxHash) :
    v ∈ l ∧ ctxCandB term src dst ctxHash v = true := by
  have h1 : v ∈ sortBy evictLe (l.filter (ctxCandB term src dst ctxHash)) :=
    List.mem_of_mem_take hv
  have h2 := mem_sortBy.mp h1
  exact ⟨(List.mem_filter.mp h2).1, (List.mem_filter.mp h2).2⟩

lemma ctx_removed_is_victim (l : List CtxRow) (term src dst ctxHash : String)
    (hids : (l.map fun r => r.id).Nodup) (r : CtxRow) (hr : r ∈ l)
    (hcont : ((ctxVictims l term src dst ctxHash).map fun v => v.id).contains r.id
      = true) : r ∈ ctxVictims l term src dst ctxHash := by
  have hmem : r.id ∈ (ctxVictims l term src dst ctxHash).map fun v => v.id :=
    List.elem_iff.mp hcont
  rcases List.mem_map.mp hmem with ⟨v, hv, hvid⟩
  have hvl := (ctxVictims_mem_cand l term src dst ctxHash v hv).1
  have := List.inj_on_of_nodup_map hids hvl hr hvid
  rw [← this]
  exact hv

lemma evictCtxStep_spec (db : DB) (term src dst ctxHash : String)
    (hids : (db.entriesCtx.map fun r => r.id).Nodup)
    (hquad : (db.entriesCtx.map fun r =>
      (r.term, r.src_lang, r.dst_lang, r.ctx_hash)).Nodup)
    (hn : (db.entriesCtx.filter (ctxKeyedB term src dst)).length ≤ 4) :
    ((evictCtxStep db term src dst ctxHash).entriesCtx.filter
      (ctxKeyedB term src dst)).length ≤ 3 ∧
    (evictCtxStep db term src dst ctxHash).entriesCtx.Sublist db.entriesCtx ∧
    (∀ r ∈ db.entriesCtx, r.ctx_hash = ctxHash →
      r ∈ (evictCtxStep db term src dst ctxHash).entriesCtx) ∧
    (∀ r ∈ db.entriesCtx, r ∉ (evictCtxStep db term src dst ctxHash).entriesCtx →
      ctxCandB term src dst ctxHash r = true ∧
      ∀ s ∈ (evictCtxStep db term src dst ctxHash).entriesCtx,
        ctxCandB term src dst ctxHash s = true → evictLe r s = true) := by
  rw [evictCtxStep_eq]
  dsimp only
  set l := db.entriesCtx with hl
  have hlnd : l.Nodup := List.Nodup.of_map _ hids
  set cands := l.filter (ctxCandB term src dst ctxHash) with hcands
  set sorted := sortBy evictLe cands with hsorted
  set k := ctxEvictK l term src dst with hkdef
  have hvicteq : ctxVictims l term src dst ctxHash = sorted.take k := rfl
  set V := (ctxVictims l term src dst ctxHash).map (fun v => v.id) with hV
  have hdropmem : ∀ s ∈ l, ctxCandB term src dst ctxHash s = true →
      V.contains s.id = false → s ∈ sorted.drop k := by
    intro s hsl hscand hsV
    have hssorted : s ∈ sorted := mem_sortBy.mpr (List.mem_filter.mpr ⟨hsl, hscand⟩)
    have hsnotvict : s ∉ ctxVictims l term src dst ctxHash := by
      intro hmem
      have hc : V.contains s.id = true :=
        List.elem_iff.mpr (List.mem_map.mpr ⟨s, hmem, rfl⟩)
      rw [hc] at hsV
      cases hsV
    have hmem2 : s ∈ sorted.take k ++ sorted.drop k := by
      rw [List.take_append_drop]
      exact hssorted
    rcases List.mem_append.mp hmem2 with h | h
    · rw [← hvicteq] at h
      exact absurd h hsnotvict
    · exact h
  have hsurvive : ∀ r ∈ l, ((!V.contains r.id) = true) →
      r ∈ l.filter fun r => !V.contains r.id := by
    intro r hr h
    exact List.mem_filter.mpr ⟨hr, h⟩
  refine ⟨?_, List.filter_sublist l, ?_, ?_⟩
  · -- the bound
    simp only [← List.countP_eq_length_filter] at hn ⊢
    set hashB : CtxRow → Bool := fun r => decide (r.ctx_hash = ctxHash) with hhashB
    have hsplit := countP_and_split (l.filter fun r => !V.contains r.id)
      (ctxKeyedB term src dst) hashB
    have h1 : (l.filter fun r => !V.contains r.id).countP
        (fun r => ctxKeyedB term src dst r && hashB r) ≤
        l.countP (fun r => ctxKeyedB term src dst r && hashB r) :=
      (List.filter_sublist l).countP_le _
    have h2 : l.countP (fun r => ctxKeyedB term src dst r && hashB r) ≤ 1 := by
      rw [List.countP_eq_length_filter]
      have hsubnd : ((l.filter fun r => ctxKeyedB term src dst r && hashB r).map
          fun r => (r.term, r.src_lang, r.dst_lang, r.ctx_hash)).Nodup :=
        List.Nodup.sublist ((List.filter_sublist l).map _) hquad
      have hconst : ∀ x ∈ (l.filter fun r => ctxKeyedB term src dst r && hashB r).map
          fun r => (r.term, r.src_lang, r.dst_lang, r.ctx_hash),
          x = (term, src, dst, ctxHash) := by
        intro x hx
        rcases List.mem_map.mp hx with ⟨r, hrf, rfl⟩
        have hp := (List.mem_filter.mp hrf).2
        rw [hhashB] at hp
        simp only [ctxKeyedB, Bool.and_eq_true, decide_eq_true_eq] at hp
        rw [hp.1.1.1, hp.1.1.2, hp.1.2, hp.2]
      have hlen := length_le_one_of_nodup_const _ _ hsubnd hconst
      rw [List.length_map] at hlen
      exact hlen
    have h3 : (l.filter fun r => !V.contains r.id).countP
        (fun r => ctxKeyedB term src dst r && !hashB r) ≤ cands.length - k := by
      rw [List.countP_eq_length_filter]
      have hRC : ((l.filter fun r => !V.contains r.id).filter
          fun r => ctxKeyedB term src dst r && !hashB r).Subperm (sorted.drop k) := by
        apply List.Nodup.subperm
        · exact List.Nodup.sublist
            ((List.filter_sublist _).trans (List.filter_sublist l)) hlnd
        · intro x hx
          have hx1 := List.mem_filter.mp hx
          have hx2 := List.mem_filter.mp hx1.1
          have hcand : ctxCandB term src dst ctxHash x = true := by
            have hp := hx1.2
            rw [hhashB] at hp
            simp only [Bool.and_eq_true, Bool.not_eq_true', decide_eq_false_iff_not]
              at hp
            simp only [ctxCandB, Bool.and_eq_true, decide_eq_true_eq]
            exact ⟨hp.1, hp.2⟩
          have hVx : V.contains x.id = false := by
            have := hx2.2
            cases hVc : V.contains x.id
            · rfl
            · rw [hVc] at this
              cases this
          exact hdropmem x hx2.1 hcand hVx
      have hle := hRC.length_le
      rw [List.length_drop] at hle
      have hslen : sorted.length = cands.length := sortBy_length _ _
      rw [hslen] at hle
      exact hle
    have hneq := countP_and_split l (ctxKeyedB term src dst) hashB
    have hcand_len : cands.length = l.countP
        (fun r => ctxKeyedB term src dst r && !hashB r) := by
      rw [hcands, ← List.countP_eq_length_filter]
      apply List.countP_congr
      intro x _
      rw [hhashB]
      simp only [ctxCandB, Bool.and_eq_true, decide_eq_true_eq, Bool.not_eq_true',
        decide_eq_false_iff_not]
    have hkd : k = if l.countP (ctxKeyedB term src dst) > 3 then
        l.countP (ctxKeyedB term src dst) - 3 else 0 := by
      rw [hkdef]
      unfold ctxEvictK
      rw [List.countP_eq_length_filter]
    rw [hsplit]
    by_cases hgt : l.countP (ctxKeyedB term src dst) > 3
    · rw [if_pos hgt] at hkd
      omega
    · rw [if_neg hgt] at hkd
      omega
  · -- the upserted hash survives
    intro r hr hh
    apply hsurvive r hr
    cases hVc : V.contains r.id
    · rfl
    · exfalso
      have hrv := ctx_removed_is_victim l term src dst ctxHash hids r hr hVc
      have hcand := (ctxVictims_mem_cand l term src dst ctxHash r hrv).2
      simp only [ctxCandB, Bool.and_eq_true, decide_eq_true_eq] at hcand
      exact hcand.2 hh
  · -- removed rows are the oldest different-hash rows of the key
    intro r hr hnot
    have hVc : V.contains r.id = true := by
      cases hVc : V.contains r.id
      · exfalso
        exact hnot (hsurvive r hr (by rw [hVc]; rfl))
      · rfl
    have hrv := ctx_removed_is_victim l term src dst ctxHash hids r hr hVc
    have hcand := (ctxVictims_mem_cand l term src dst ctxHash r hrv).2
    refine ⟨hcand, ?_⟩
    intro s hs hscand
    have hs1 := List.mem_filter.mp hs
    have hsV : V.contains s.id = false := by
      have := hs1.2
      cases hVc2 : V.contains s.id
      · rfl
      · rw [hVc2] at this
        cases this
    have hsdrop := hdropmem s hs1.1 hscand hsV
    have hrtake : r ∈ sorted.take k := by
      rw [← hvicteq]
      exact hrv
    have hpw := sortBy_evictLe_sorted cands
    rw [← hsorted, ← List.take_append_drop k sorted] at hpw
    exact (List.pairwise_append.mp hpw).2.2 r hrtake s hsdrop

lemma upsertCtxRowStep_spec (db : DB) (term translation src dst ctxHash : String)
    (nowS : ℤ) (ctxText : String) (hwf : CtxWellFormed db) :
    CtxWellFormed (upsertCtxRowStep db term translation src dst ctxHash nowS ctxText) ∧
    ((upsertCtxRowStep db term translation src dst ctxHash nowS ctxText).entriesCtx.filter
      (ctxKeyedB term src dst)).length ≤
      (db.entriesCtx.filter (ctxKeyedB term src dst)).length + 1 ∧
    (∀ t s d : String, ¬(t = term ∧ s = src ∧ d = dst) →
      ((upsertCtxRowStep db term translation src dst ctxHash nowS ctxText).entriesCtx.filter
        (ctxKeyedB t s d)).length = (db.entriesCtx.filter (ctxKeyedB t s d)).length) ∧
    (∃ r ∈ (upsertCtxRowStep db term translation src dst ctxHash nowS ctxText).entriesCtx,
      r.term = term ∧ r.src_lang = src ∧ r.dst_lang = dst ∧ r.ctx_hash = ctxHash) := by
  unfold upsertCtxRowStep
  dsimp only
  by_cases hany : db.entriesCtx.any (fun r =>
      r.term = term && r.src_lang = src && r.dst_lang = dst && r.ctx_hash = ctxHash) = true
  · rw [if_pos hany]
    set g : CtxRow → CtxRow := fun r =>
      if (r.term = term && r.src_lang = src && r.dst_lang = dst &&
          r.ctx_hash = ctxHash : Bool) = true then
        ctxHitUpdate translation nowS ctxText r
      else r with hg
    have hgid : ∀ r : CtxRow, (g r).id = r.id := by
      intro r
      rw [hg]
      dsimp only
      split <;> rfl
    have hgquad : ∀ r : CtxRow,
        ((g r).term, (g r).src_lang, (g r).dst_lang, (g r).ctx_hash) =
          (r.term, r.src_lang, r.dst_lang, r.ctx_hash) := by
      intro r
      rw [hg]
      dsimp only
      split <;> rfl
    have hgkey : ∀ (t s d : String) (r : CtxRow),
        ctxKeyedB t s d (g r) = ctxKeyedB t s d r := by
      intro t s d r
      have hq := hgquad r
      rw [Prod.mk.injEq, Prod.mk.injEq, Prod.mk.injEq] at hq
      unfold ctxKeyedB
      rw [hq.1, hq.2.1, hq.2.2.1]
    have hmapid : (db.entriesCtx.map g).map (fun r => r.id) =
        db.entriesCtx.map (fun r => r.id) := by
      rw [List.map_map]
      exact List.map_congr_left fun r _ => hgid r
    have hmapquad : (db.entriesCtx.map g).map
        (fun r => (r.term, r.src_lang, r.dst_lang, r.ctx_hash)) =
        db.entriesCtx.map (fun r => (r.term, r.src_lang, r.dst_lang, r.ctx_hash)) := by
      rw [List.map_map]
      exact List.map_congr_left fun r _ => hgquad r
    have hcnt : ∀ t s d : String,
        ((db.entriesCtx.map g).filter (ctxKeyedB t s d)).length =
          (db.entriesCtx.filter (ctxKeyedB t s d)).length := by
      intro t s d
      rw [← List.countP_eq_length_filter, ← List.countP_eq_length_filter,
        List.countP_map]
      exact List.countP_congr fun r _ => by
        have := hgkey t s d r
        simp only [Function.comp]
        rw [this]
    refine ⟨⟨?_, ?_, ?_⟩, ?_, ?_, ?_⟩
    · rw [hmapid]
      exact hwf.1
    · rw [hmapquad]
      exact hwf.2.1
    · intro r hr
      rcases List.mem_map.mp hr with ⟨r0, hr0, rfl⟩
      rw [hgid]
      exact hwf.2.2 r0 hr0
    · rw [hcnt]
      omega
    · intro t s d _
      exact hcnt t s d
    · rcases List.any_eq_true.mp hany with ⟨r, hr, hhit⟩
      refine ⟨g r, List.mem_map.mpr ⟨r, hr, rfl⟩, ?_⟩
      have hgr : g r = ctxHitUpdate translation nowS ctxText r := by
        rw [hg]
        dsimp only
        rw [if_pos hhit]
      simp only [Bool.and_eq_true, decide_eq_true_eq] at hhit
      rw [hgr]
      exact ⟨hhit.1.1.1, hhit.1.1.2, hhit.1.2, hhit.2⟩
  · rw [if_neg hany]
    have hnone : ∀ r ∈ db.entriesCtx,
        (r.term = term && r.src_lang = src && r.dst_lang = dst &&
          r.ctx_hash = ctxHash : Bool) = false := by
      intro r hr
      cases hb : (r.term = term && r.src_lang = src && r.dst_lang = dst &&
          r.ctx_hash = ctxHash : Bool)
      · rfl
      · exact absurd (List.any_eq_true.mpr ⟨r, hr, hb⟩) hany
    set newRow : CtxRow :=
      { id := db.nextCtxId, term := term, translation := translation, src_lang := src,
        dst_lang := dst, ctx_hash := ctxHash, ctx_text := ctxText, created_at := nowS,
        last_used := some nowS, count := 1 } with hnew
    refine ⟨⟨?_, ?_, ?_⟩, ?_, ?_, ?_⟩
    · rw [List.map_append]
      refine List.nodup_append.mpr ⟨hwf.1, by simp, ?_⟩
      intro a ha hb
      simp only [List.map_cons, List.map_nil, List.mem_singleton] at hb
      rcases List.mem_map.mp ha with ⟨r, hr, rfl⟩
      have := hwf.2.2 r hr
      rw [hb] at this
      omega
    · rw [List.map_append]
      refine List.nodup_append.mpr ⟨hwf.2.1, by simp, ?_⟩
      intro a ha hb
      simp only [List.map_cons, List.map_nil, List.mem_singleton] at hb
      rcases List.mem_map.mp ha with ⟨r, hr, rfl⟩
      have hhit := hnone r hr
      rw [Prod.mk.injEq, Prod.mk.injEq, Prod.mk.injEq] at hb
      simp [hb.1, hb.2.1, hb.2.2.1, hb.2.2.2] at hhit
    · intro r hr
      show r.id < db.nextCtxId + 1
      rcases List.mem_append.mp hr with h | h
      · have := hwf.2.2 r h
        omega
      · simp only [List.mem_singleton] at h
        rw [h]
        have hid : newRow.id = db.nextCtxId := rfl
        rw [hid]
        omega
    · rw [← List.countP_eq_length_filter, ← List.countP_eq_length_filter,
        List.countP_append]
      have : List.countP (ctxKeyedB term src dst) [newRow] ≤ 1 := by
        rw [List.countP_cons, List.countP_nil]
        split <;> omega
      omega
    · intro t s d hne
      rw [← List.countP_eq_length_filter, ← List.countP_eq_length_filter,
        List.countP_append]
      have : List.countP (ctxKeyedB t s d) [newRow] = 0 := by
        rw [List.countP_cons]
        have : ctxKeyedB t s d newRow = false := by
          cases hb : ctxKeyedB t s d newRow
          · rfl
          · exfalso
            simp only [hnew, ctxKeyedB, Bool.and_eq_true, decide_eq_true_eq] at hb
            exact hne ⟨hb.1.1.symm, hb.1.2.symm, hb.2.symm⟩
        rw [this]
        simp [List.countP_nil]
      omega
    · exact ⟨newRow, List.mem_append.mpr (Or.inr (by simp)), rfl, rfl, rfl, rfl⟩

lemma evictCtxStep_nextCtxId (db : DB) (t s d h : String) :
    (evictCtxStep db t s d h).nextCtxId = db.nextCtxId := by
  rw [evictCtxStep_eq]

lemma C2_main_aux (db dbU dbV db2 : DB) (term src dst ctxHash : String)
    (hwfU : CtxWellFormed dbU)
    (hbU4 : (dbU.entriesCtx.filter (ctxKeyedB term src dst)).length ≤ 4)
    (hoU : ∀ t s d : String, ¬(t = term ∧ s = src ∧ d = dst) →
      (dbU.entriesCtx.filter (ctxKeyedB t s d)).length =
        (db.entriesCtx.filter (ctxKeyedB t s d)).length)
    (hpU : ∃ r ∈ dbU.entriesCtx, r.term = term ∧ r.src_lang = src ∧
      r.dst_lang = dst ∧ r.ctx_hash = ctxHash)
    (hVctx : dbV.entriesCtx = dbU.entriesCtx)
    (hVnext : dbV.nextCtxId = dbU.nextCtxId)
    (hE2 : db2 = evictCtxStep dbV term src dst ctxHash) :
    CtxWellFormed db2 ∧
    (db2.entriesCtx.filter (ctxKeyedB term src dst)).length ≤ 3 ∧
    (∀ t s d : String, ¬(t = term ∧ s = src ∧ d = dst) →
      (db2.entriesCtx.filter (ctxKeyedB t s d)).length ≤
        (db.entriesCtx.filter (ctxKeyedB t s d)).length) ∧
    (∃ r ∈ db2.entriesCtx, r.term = term ∧ r.src_lang = src ∧ r.dst_lang = dst ∧
      r.ctx_hash = ctxHash) ∧
    (∀ r ∈ dbU.entriesCtx, r ∉ db2.entriesCtx →
      (r.term = term ∧ r.src_lang = src ∧ r.dst_lang = dst ∧ r.ctx_hash ≠ ctxHash) ∧
      ∀ s ∈ db2.entriesCtx, s.term = term → s.src_lang = src → s.dst_lang = dst →
        s.ctx_hash ≠ ctxHash → evictLe r s = true) := by
  obtain ⟨hbE, hsubE, hsurv, hvict⟩ := evictCtxStep_spec dbV term src dst ctxHash
    (by rw [hVctx]; exact hwfU.1) (by rw [hVctx]; exact hwfU.2.1)
    (by rw [hVctx]; exact hbU4)
  rw [hVctx] at hsubE hsurv hvict
  rw [← hE2] at hbE hsubE hsurv hvict
  refine ⟨⟨?_, ?_, ?_⟩, hbE, ?_, ?_, ?_⟩
  · exact List.Nodup.sublist (hsubE.map _) hwfU.1
  · exact List.Nodup.sublist (hsubE.map _) hwfU.2.1
  · intro r hr
    have hrU : r ∈ dbU.entriesCtx := hsubE.subset hr
    have h1 := hwfU.2.2 r hrU
    have h2 : db2.nextCtxId = dbU.nextCtxId := by
      rw [hE2, evictCtxStep_nextCtxId, hVnext]
    omega
  · intro t s d hne
    have h1 : (db2.entriesCtx.filter (ctxKeyedB t s d)).length ≤
        (dbU.entriesCtx.filter (ctxKeyedB t s d)).length :=
      (hsubE.filter _).length_le
    rw [hoU t s d hne] at h1
    exact h1
  · obtain ⟨r, hr, h1, h2, h3, h4⟩ := hpU
    exact ⟨r, hsurv r hr h4, h1, h2, h3, h4⟩
  · intro r hr hnot
    obtain ⟨hcand, hforall⟩ := hvict r hr hnot
    have hcand2 : r.term = term ∧ r.src_lang = src ∧ r.dst_lang = dst ∧
        r.ctx_hash ≠ ctxHash := by
      simp only [ctxCandB, ctxKeyedB, Bool.and_eq_true, decide_eq_true_eq] at hcand
      exact ⟨hcand.1.1.1, hcand.1.1.2, hcand.1.2, hcand.2⟩
    refine ⟨hcand2, ?_⟩
    intro s hs h1 h2 h3 h4
    apply hforall s hs
    simp only [ctxCandB, ctxKeyedB, Bool.and_eq_true, decide_eq_true_eq]
    exact ⟨⟨⟨h1, h2⟩, h3⟩, h4⟩

/-- **C2.** `upsert_ctx_entry` keeps the per-key context bound: starting from
a schema-well-formed state with at most three rows for `(term, src_lang,
dst_lang)`, after the call the key again has at most three rows, no other
key gained a row, the row carrying the upserted `ctx_hash` is present, and
every row deleted on the way from the post-upsert state `dbU` to the final
state is a same-key row with a different `ctx_hash` that precedes every
surviving different-hash row of the key in `COALESCE(last_used, created_at)
ASC, id ASC` order (it is among the oldest). -/
theorem C2_ctx_cache_bound (db dbU db2 : DB) (term translation src dst ctxHash : String)
    (nowS : ℤ) (ctxText : String)
    (hwf : CtxWellFormed db)
    (hbound : (db.entriesCtx.filter (ctxKeyedB term src dst)).length ≤ 3)
    (hU : dbU = upsertCtxRowStep db term translation src dst ctxHash nowS
      (pyCollapse ctxText))
    (hE : db2 = upsertCtxEntry db term translation src dst ctxHash nowS ctxText) :
    CtxWellFormed db2 ∧
    (db2.entriesCtx.filter (ctxKeyedB term src dst)).length ≤ 3 ∧
    (∀ t s d : String, ¬(t = term ∧ s = src ∧ d = dst) →
      (db2.entriesCtx.filter (ctxKeyedB t s d)).length ≤
        (db.entriesCtx.filter (ctxKeyedB t s d)).length) ∧
    (∃ r ∈ db2.entriesCtx, r.term = term ∧ r.src_lang = src ∧ r.dst_lang = dst ∧
      r.ctx_hash = ctxHash) ∧
    (∀ r ∈ dbU.entriesCtx, r ∉ db2.entriesCtx →
      (r.term = term ∧ r.src_lang = src ∧ r.dst_lang = dst ∧ r.ctx_hash ≠ ctxHash) ∧
      ∀ s ∈ db2.entriesCtx, s.term = term → s.src_lang = src → s.dst_lang = dst →
        s.ctx_hash ≠ ctxHash → evictLe r s = true) := by
  obtain ⟨hwfU, hbU, hoU, hpU⟩ := upsertCtxRowStep_spec db term translation src dst
    ctxHash nowS (pyCollapse ctxText) hwf
  rw [← hU] at hwfU hbU hoU hpU
  obtain ⟨dbV, hVctx, hVnext, hE2⟩ : ∃ dbV : DB,
      dbV.entriesCtx = dbU.entriesCtx ∧ dbV.nextCtxId = dbU.nextCtxId ∧
      db2 = evictCtxStep dbV term src dst ctxHash := by
    refine ⟨if shouldStoreVariant term (normTranslation translation) then
        { dbU with
            entryTranslations :=
              upsertVariantRow dbU.entryTranslations term (normTranslation translation)
                src dst nowS nowS }
      else dbU, ?_, ?_, ?_⟩
    · split <;> rfl
    · split <;> rfl
    · rw [hE, hU]
      rfl
  exact C2_main_aux db dbU dbV db2 term src dst ctxHash hwfU (by omega) hoU hpU
    hVctx hVnext hE2

/-- A context row of the key `("w", "EN", "RU")`. -/
def c2Row (i : ℤ) (h : String) (ts : ℤ) : CtxRow :=
  { id := i, term := "w", translation := "t", src_lang := "EN", dst_lang := "RU",
    ctx_hash := h, ctx_text := "", created_at := ts, last_used := none, count := 1 }

/-- A database already holding three contexts for the key. -/
def c2Db : DB :=
  { entries := [], entriesCtx := [c2Row 1 "h1" 10, c2Row 2 "h2" 20, c2Row 3 "h3" 30],
    entryTranslations := [], mwDefs := [], trainingCards := [], trainingReviews := [],
    nextEntryId := 1, nextCtxId := 4, nextCardId := 1 }

/-- Witness for C2: upserting a fourth context hash on a full key. -/
theorem C2_witness :
    CtxWellFormed c2Db ∧
    (c2Db.entriesCtx.filter (ctxKeyedB "w" "EN" "RU")).length ≤ 3 ∧
    (CtxWellFormed (upsertCtxEntry c2Db "w" "x" "EN" "RU" "h4" 100 "c") ∧
      ((upsertCtxEntry c2Db "w" "x" "EN" "RU" "h4" 100 "c").entriesCtx.filter
        (ctxKeyedB "w" "EN" "RU")).length ≤ 3 ∧
      (∀ t s d : String, ¬(t = "w" ∧ s = "EN" ∧ d = "RU") →
        ((upsertCtxEntry c2Db "w" "x" "EN" "RU" "h4" 100 "c").entriesCtx.filter
          (ctxKeyedB t s d)).length ≤
          (c2Db.entriesCtx.filter (ctxKeyedB t s d)).length) ∧
      (∃ r ∈ (upsertCtxEntry c2Db "w" "x" "EN" "RU" "h4" 100 "c").entriesCtx,
        r.term = "w" ∧ r.src_lang = "EN" ∧ r.dst_lang = "RU" ∧ r.ctx_hash = "h4") ∧
      (∀ r ∈ (upsertCtxRowStep c2Db "w" "x" "EN" "RU" "h4" 100
          (pyCollapse "c")).entriesCtx,
        r ∉ (upsertCtxEntry c2Db "w" "x" "EN" "RU" "h4" 100 "c").entriesCtx →
        (r.term = "w" ∧ r.src_lang = "EN" ∧ r.dst_lang = "RU" ∧ r.ctx_hash ≠ "h4") ∧
        ∀ s ∈ (upsertCtxEntry c2Db "w" "x" "EN" "RU" "h4" 100 "c").entriesCtx,
          s.term = "w" → s.src_lang = "EN" → s.dst_lang = "RU" → s.ctx_hash ≠ "h4" →
          evictLe r s = true)) :=
  ⟨by decide, by decide,
    C2_ctx_cache_bound c2Db _ _ "w" "x" "EN" "RU" "h4" 100 "c"
      (by decide) (by decide) rfl rfl⟩

/-! ## Claim C3: the variant invariant -/

instance (v : VariantRow) : Decidable (VariantOk v) := by
  unfold VariantOk
  infer_instance

lemma upsertCtxRowStep_entryTranslations (db : DB)
    (term translation src dst ctxHash : String) (nowS : ℤ) (ctxText : String) :
    (upsertCtxRowStep db term translation src dst ctxHash nowS
      ctxText).entryTranslations = db.entryTranslations := by
  unfold upsertCtxRowStep
  dsimp only
  split <;> rfl

lemma evictCtxStep_entryTranslations (db : DB) (t s d h : String) :
    (evictCtxStep db t s d h).entryTranslations = db.entryTranslations := by
  rw [evictCtxStep_eq]

lemma upsertVariantRow_mem (rows : List VariantRow) (term translation src dst : String)
    (createdAt lastUsed : ℤ) :
    ∀ v ∈ upsertVariantRow rows term translation src dst createdAt lastUsed,
      v ∈ rows ∨ (v.term = term ∧ v.translation = translation) := by
  unfold upsertVariantRow
  dsimp only
  split
  · intro v hv
    rcases List.mem_map.mp hv with ⟨v0, hv0, rfl⟩
    by_cases hhit : (v0.term = term && v0.src_lang = src && v0.dst_lang = dst &&
        v0.translation = translation : Bool) = true
    · rw [if_pos hhit]
      right
      simp only [Bool.and_eq_true, decide_eq_true_eq] at hhit
      exact ⟨hhit.1.1.1, hhit.2⟩
    · rw [if_neg hhit]
      left
      exact hv0
  · intro v hv
    rcases List.mem_append.mp hv with h | h
    · left
      exact h
    · right
      simp only [List.mem_singleton] at h
      rw [h]
      exact ⟨rfl, rfl⟩

/-- The variant table written by `upsert_ctx_entry`: the normalized
translation is upserted only when `_should_store_variant` accepts it. -/
lemma upsertCtxEntry_entryTranslations (db : DB)
    (term translation src dst ctxHash : String) (nowS : ℤ) (ctxText : String) :
    (upsertCtxEntry db term translation src dst ctxHash nowS
      ctxText).entryTranslations =
      if shouldStoreVariant term (normTranslation translation) then
        upsertVariantRow db.entryTranslations term (normTranslation translation)
          src dst nowS nowS
      else db.entryTranslations := by
  unfold upsertCtxEntry
  dsimp only
  rw [evictCtxStep_entryTranslations]
  by_cases hsv : shouldStoreVariant term (normTranslation translation) = true
  · rw [if_pos hsv, if_pos hsv]
    rw [upsertCtxRowStep_entryTranslations]
  · rw [if_neg hsv, if_neg hsv]
    rw [upsertCtxRowStep_entryTranslations]

/-- **C3 (amended).** Only the contextual path filters variants: when
`_should_store_variant` rejects the normalized translation (empty, or equal
to the term after stripping and casefolding), `upsert_ctx_entry` leaves
`entry_translations` untouched; and every variant row after the call either
was already present or carries exactly the term and the normalized
translation that passed the check.  (`upsert_base_entry` and
`touch_base_usage` upsert raw translations with no such check, which is what
the counterexample exploits.) -/
theorem C3_amended_variant_filter (db : DB)
    (term translation src dst ctxHash : String) (nowS : ℤ) (ctxText : String) :
    (shouldStoreVariant term (normTranslation translation) = false →
      (upsertCtxEntry db term translation src dst ctxHash nowS
        ctxText).entryTranslations = db.entryTranslations) ∧
    (∀ v ∈ (upsertCtxEntry db term translation src dst ctxHash nowS
        ctxText).entryTranslations,
      v ∈ db.entryTranslations ∨
      (v.term = term ∧ v.translation = normTranslation translation ∧
        shouldStoreVariant v.term v.translation = true)) := by
  constructor
  · intro hsv
    rw [upsertCtxEntry_entryTranslations, if_neg (by rw [hsv]; exact Bool.false_ne_true)]
  · intro v hv
    rw [upsertCtxEntry_entryTranslations] at hv
    by_cases hsv : shouldStoreVariant term (normTranslation translation) = true
    · rw [if_pos hsv] at hv
      rcases upsertVariantRow_mem db.entryTranslations term
          (normTranslation translation) src dst nowS nowS v hv with h | h
      · exact Or.inl h
      · refine Or.inr ⟨h.1, h.2, ?_⟩
        rw [h.1, h.2]
        exact hsv
    · rw [if_neg hsv] at hv
      exact Or.inl hv

/-- Witness for C3: `_norm_translation("ought.") = "ought"` is rejected
against the term `"ought"`, and the contextual upsert stores nothing. -/
theorem C3_witness :
    shouldStoreVariant "ought" (normTranslation "ought.") = false ∧
    (upsertCtxEntry dbEmpty "ought" "ought." "EN" "RU" "h" 5 "").entryTranslations =
      dbEmpty.entryTranslations :=
  ⟨by decide,
    (C3_amended_variant_filter dbEmpty "ought" "ought." "EN" "RU" "h" 5 "").1
      (by decide)⟩

/-- **C3 counterexample.** `upsert_base_entry` upserts the raw translation
into `entry_translations` with no `_should_store_variant` check: caching the
untranslated pair `("ought", "ought")` places a variant row whose normalized,
casefolded translation equals the casefolded term. -/
theorem C3_counterexample :
    ∃ v ∈ (upsertBaseEntry dbEmpty "ought" "ought" "EN" "RU" "EN" 100
      none).entryTranslations, ¬ VariantOk v := by
  decide

end VimDeepl
